import Mathlib

/-!
Verification of the chasm assembler front end (lexer token model, recursive
descent parser, statement ordering and code generation orchestration).

The definitions below are a shallow embedding of the C++ sources:
  - `src/include/chasm/lexer.hpp` (token kinds and token payloads),
  - `src/src/parser.cpp` (the recursive-descent parser),
  - `src/src/ast.cpp` (`abstract_tree::generate`: sanitize, stable sort by
    descending priority, then code generation).
Tokens carry a payload that is either a 16-bit numeric value or a string
lexeme, mirroring `std::variant<uint16_t, std::string>`.  Parsers are
functions from the remaining token list to `Except parse_error (result ×
remaining tokens)`, mirroring the `token_it` cursor of the C++ parser class.

Parts of the repository referenced by the sources are not shipped under
`src/` (the architecture descriptor `arch.hpp`, the AST node definitions
`ast.hpp` with the per-kind priorities, the helper declarations of
`parser.hpp`, the symbol sanitizer and the generator).  Those definitions
are modelled from the specification and are marked `Modelled from the
spec:` in their doc comments.
-/

set_option maxHeartbeats 1000000

namespace chasm

/-- Token kinds of the chasm lexer, from the `token_type` enumeration of
`src/include/chasm/lexer.hpp`. -/
inductive token_type where
  | eof
  | numerical
  | byte_ascii
  | keyword_define
  | keyword_config
  | keyword_default
  | keyword_sprite
  | keyword_raw
  | keyword_proc_start
  | keyword_proc_end
  | identifier
  | instruction
  | register_name
  | bracket_open
  | bracket_close
  | parenthesis_open
  | parenthesis_close
  | colon
  | dot_label
  | at_label
  | dollar_proc
  | hash_sprite
  | comma
  | equal
  deriving DecidableEq, Repr

/-- Token payload: `std::variant<uint16_t, std::string>` from `lexer.hpp`.
Numeric payloads are 16-bit values produced by the lexer; the embedding
uses `Nat` and the lexer-side bound is irrelevant to the parser claims. -/
inductive token_data where
  | num (v : Nat)
  | str (s : String)
  deriving DecidableEq, Repr

/-- A lexer token: kind plus payload, from `struct token` of `lexer.hpp`.
The `source_location` member only feeds diagnostics text and is omitted. -/
structure token where
  type : token_type
  data : token_data
  deriving DecidableEq, Repr

/-- `token::to_integer`: `std::get<uint16_t>(data)`.  The C++ call throws on
a string payload; the parser only invokes it on `numerical` tokens, whose
payload is numeric, so the embedding totalises it with 0. -/
def token.to_integer (t : token) : Nat :=
  match t.data with
  | .num v => v
  | .str _ => 0

/-- `token::to_string`: the numeric payload printed, or the string lexeme. -/
def token.to_string (t : token) : String :=
  match t.data with
  | .num v => Nat.repr v
  | .str s => s

/-- Modelled from the spec: `arch::MAX_SPRITE_ROWS` from the architecture
descriptor `arch.hpp`, which is not under `src/`.  The spec fixes only that
there is a fixed maximum row count for sprites of this CHIP-8-class target;
the standard CHIP-8 sprite height bound 15 is used. -/
def MAX_SPRITE_ROWS : Nat := 15

/-- Modelled from the spec: the 4/8/12-bit immediate-value format families
of the architecture descriptor.  A format is its bit width. -/
def fmt_imm4 : Nat := 4

/-- Modelled from the spec: the 8-bit immediate format family. -/
def fmt_imm8 : Nat := 8

/-- Modelled from the spec: the 12-bit immediate format family. -/
def fmt_imm12 : Nat := 12

/-- Modelled from the spec: `arch::imm_matches_format` — a value fits a
format family exactly when it fits in that many bits. -/
def imm_matches_format (v : Nat) (fmt : Nat) : Bool :=
  v < 2 ^ fmt

/-- Modelled from the spec: the architecture's fixed load base address
(the conventional CHIP-8 program start). -/
def base_address : Nat := 0x200

/-- Instruction operand variants, from the `ast::instruction_operand`
factories used by `parser::parse_operand` (`make_reg`, `make_immediate`,
`make_label`, `make_proc`, `make_sprite`, `make_indirect`).  Each variant
carries the token it was built from. -/
inductive operand where
  | reg (t : token)
  | imm (t : token)
  | lbl (t : token)
  | prc (t : token)
  | spr (t : token)
  | indirect (t : token)
  deriving DecidableEq, Repr

/-- AST statement variants, from the `ast::*_statement` node constructors
used by `parser.cpp`.  A `sprite_statement` stores the parsed rows in
order (the C++ `arch::sprite` fixed array restricted to `row_count`).
Label and procedure statements own an ordered list of nested statements. -/
inductive stmt where
  | define_statement (name value : token)
  | config_statement (name value : token)
  | sprite_statement (name : token) (rows : List Nat)
  | raw_statement (t : token)
  | label_statement (name : token) (inner : List stmt)
  | procedure_statement (name_beg name_end : token) (inner : List stmt)
  | instruction_statement (mnemonic : token) (operands : List operand)
  deriving Repr

/-- True exactly on `label_statement` nodes. -/
def stmt.is_label : stmt → Bool
  | .label_statement _ _ => true
  | _ => false

/-- True exactly on `procedure_statement` nodes. -/
def stmt.is_procedure : stmt → Bool
  | .procedure_statement _ _ _ => true
  | _ => false

/-- Modelled from the spec: the per-statement-kind `priority()` values of
`ast.hpp`, which is not under `src/`.  The spec fixes only that priority is
a per-kind integer ranking placing declarations ahead of the statements
that consume them; value declarations come first, sprite data next, and
all code-emitting kinds share the lowest rank so layout keeps their
source order. -/
def stmt.priority : stmt → Nat
  | .define_statement _ _ => 3
  | .config_statement _ _ => 3
  | .sprite_statement _ _ => 2
  | .raw_statement _ => 0
  | .label_statement _ _ => 0
  | .procedure_statement _ _ _ => 0
  | .instruction_statement _ _ => 0

/-- The abstract tree: the top-level ordered statement sequence, from
`ast::abstract_tree`. -/
structure abstract_tree where
  statements : List stmt

/-- Parser failure values.  `parser.cpp` throws `parser_exception`
(`unexpected_error`, `unmatching_procedure_names`) and `chasm_exception`
(end of input inside `advance`, EOF inside a procedure body, a nested
procedure, sprite row-count overflow, sprite row value overflow); the
constructors keep the data each C++ exception carries. -/
inductive parse_error where
  | unexpected (t : token)
  | unexpected_eof
  | unmatching_procedure_names (name_beg name_end : token)
  | nested_procedure
  | sprite_too_many_rows (name : String) (count : Nat)
  | sprite_row_too_large
  deriving DecidableEq, Repr

/-- Modelled from the spec: the parser helper `expect` (declared in the
missing `parser.hpp`): the current token must have one of the allowed
kinds; on a match it is returned and the cursor advances, otherwise the
parse fails with `UnexpectedToken`, and running out of tokens is the fatal
`advance`-past-the-end error. -/
def expect (allowed : List token_type) : List token → Except parse_error (token × List token)
  | [] => .error .unexpected_eof
  | t :: ts => if t.type ∈ allowed then .ok (t, ts) else .error (.unexpected t)

/-- Modelled from the spec: the parser helper `advance_if` (declared in the
missing `parser.hpp`): consume the current token when it has the given
kind, reporting whether it did. -/
def advance_if (tt : token_type) : List token → Bool × List token
  | [] => (false, [])
  | t :: ts => if t.type = tt then (true, ts) else (false, t :: ts)

/-- Modelled from the spec: the parser helper `next_any_of` (declared in
the missing `parser.hpp`): does the current token have one of the given
kinds (without consuming it)? -/
def next_any_of (tts : List token_type) : List token → Bool
  | [] => false
  | t :: _ => t.type ∈ tts

/-- `parser::parse_raw`: `raw ( number-or-identifier )`. -/
def parse_raw (ts : List token) : Except parse_error (stmt × List token) :=
  match expect [.keyword_raw] ts with
  | .error e => .error e
  | .ok (_, ts) =>
  match expect [.parenthesis_open] ts with
  | .error e => .error e
  | .ok (_, ts) =>
  match expect [.numerical, .identifier] ts with
  | .error e => .error e
  | .ok (t, ts) =>
  match expect [.parenthesis_close] ts with
  | .error e => .error e
  | .ok (_, ts) => .ok (.raw_statement t, ts)

/-- `parser::parse_define`: `define name (number | default)`. -/
def parse_define (ts : List token) : Except parse_error (stmt × List token) :=
  match expect [.keyword_define] ts with
  | .error e => .error e
  | .ok (_, ts) =>
  match expect [.identifier] ts with
  | .error e => .error e
  | .ok (identifier, ts) =>
  match expect [.numerical, .keyword_default] ts with
  | .error e => .error e
  | .ok (value, ts) => .ok (.define_statement identifier value, ts)

/-- `parser::parse_config`: `config name = (number | default)`. -/
def parse_config (ts : List token) : Except parse_error (stmt × List token) :=
  match expect [.keyword_config] ts with
  | .error e => .error e
  | .ok (_, ts) =>
  match expect [.identifier] ts with
  | .error e => .error e
  | .ok (identifier, ts) =>
  match expect [.equal] ts with
  | .error e => .error e
  | .ok (_, ts) =>
  match expect [.numerical, .keyword_default] ts with
  | .error e => .error e
  | .ok (value, ts) => .ok (.config_statement identifier value, ts)

/-- The row loop of `parser::parse_sprite`: a do-while that expects a
numerical row token, fails when the row counter has already reached
`MAX_SPRITE_ROWS`, fails when the row value does not fit the 8-bit
immediate format, stores the row, and continues while a comma follows. -/
def sprite_rows (name : String) (acc : List Nat) : List token → Except parse_error (List Nat × List token)
  | [] => .error .unexpected_eof
  | t :: ts =>
    if t.type = .numerical then
      if acc.length ≥ MAX_SPRITE_ROWS then
        .error (.sprite_too_many_rows name acc.length)
      else if ¬ imm_matches_format t.to_integer fmt_imm8 then
        .error .sprite_row_too_large
      else
        match ts with
        | [] => .ok (acc ++ [t.to_integer], [])
        | t2 :: ts2 =>
          if t2.type = .comma then
            sprite_rows name (acc ++ [t.to_integer]) ts2
          else
            .ok (acc ++ [t.to_integer], t2 :: ts2)
    else
      .error (.unexpected t)

/-- `parser::parse_sprite`: `sprite name [ n, n, ... ]`. -/
def parse_sprite (ts : List token) : Except parse_error (stmt × List token) :=
  match expect [.keyword_sprite] ts with
  | .error e => .error e
  | .ok (_, ts) =>
  match expect [.identifier] ts with
  | .error e => .error e
  | .ok (identifier, ts) =>
  match expect [.bracket_open] ts with
  | .error e => .error e
  | .ok (_, ts) =>
  match sprite_rows identifier.to_string [] ts with
  | .error e => .error e
  | .ok (rows, ts) =>
  match expect [.bracket_close] ts with
  | .error e => .error e
  | .ok (_, ts) => .ok (.sprite_statement identifier rows, ts)

/-- `parser::parse_operand`: dispatch on the leading token kind. -/
def parse_operand (ts : List token) : Except parse_error (operand × List token) :=
  match expect [.register_name, .identifier, .numerical, .at_label,
                .dollar_proc, .hash_sprite, .bracket_open] ts with
  | .error e => .error e
  | .ok (t, ts) =>
  match t.type with
  | .register_name => .ok (.reg t, ts)
  | .at_label =>
    match expect [.identifier] ts with
    | .error e => .error e
    | .ok (lab, ts) => .ok (.lbl lab, ts)
  | .dollar_proc =>
    match expect [.identifier] ts with
    | .error e => .error e
    | .ok (p, ts) => .ok (.prc p, ts)
  | .hash_sprite =>
    match expect [.identifier] ts with
    | .error e => .error e
    | .ok (s, ts) => .ok (.spr s, ts)
  | .bracket_open =>
    match expect [.identifier, .numerical] ts with
    | .error e => .error e
    | .ok (inner, ts) =>
    match expect [.bracket_close] ts with
    | .error e => .error e
    | .ok (_, ts) => .ok (.indirect inner, ts)
  | _ => .ok (.imm t, ts)

theorem expect_length {allowed : List token_type} {ts ts' : List token} {t : token}
    (h : expect allowed ts = .ok (t, ts')) : ts'.length + 1 = ts.length := by
  match ts with
  | [] => simp [expect] at h
  | u :: us =>
    simp only [expect] at h
    split at h
    · simp_all
    · simp_all

theorem parse_operand_length {ts ts' : List token} {op : operand}
    (h : parse_operand ts = .ok (op, ts')) : ts'.length < ts.length := by
  simp only [parse_operand] at h
  split at h
  · simp at h
  next heq1 =>
  have h1 := expect_length heq1
  split at h <;>
    first
    | (simp only [Except.ok.injEq, Prod.mk.injEq] at h
       obtain ⟨-, rfl⟩ := h
       omega)
    | (split at h
       · simp at h
       next heq2 =>
         have h2 := expect_length heq2
         first
         | (simp only [Except.ok.injEq, Prod.mk.injEq] at h
            obtain ⟨-, rfl⟩ := h
            omega)
         | (split at h
            · simp at h
            next heq3 =>
              have h3 := expect_length heq3
              simp only [Except.ok.injEq, Prod.mk.injEq] at h
              obtain ⟨-, rfl⟩ := h
              omega))

theorem advance_if_true_length {tt : token_type} {ts ts' : List token}
    (h : advance_if tt ts = (true, ts')) : ts'.length + 1 = ts.length := by
  match ts with
  | [] => simp [advance_if] at h
  | u :: us =>
    simp only [advance_if] at h
    split at h
    · simp_all
    · simp_all

/-- `parser::parse_operands`: while the current token can start an operand,
parse one, and continue only while a comma follows. -/
def parse_operands (ts : List token) : Except parse_error (List operand × List token) :=
  if next_any_of [.identifier, .register_name, .at_label, .hash_sprite,
                  .dollar_proc, .numerical, .bracket_open] ts then
    match hop : parse_operand ts with
    | .error e => .error e
    | .ok (op, rest) =>
      match hadv : advance_if .comma rest with
      | (true, rest') =>
        match parse_operands rest' with
        | .error e => .error e
        | .ok (ops, rest'') => .ok (op :: ops, rest'')
      | (false, _) => .ok ([op], rest)
  else
    .ok ([], ts)
  termination_by ts.length
  decreasing_by
    have h1 := parse_operand_length hop
    have h2 := advance_if_true_length hadv
    omega

/-- `parser::parse_instruction`: a mnemonic followed by its operands. -/
def parse_instruction (ts : List token) : Except parse_error (stmt × List token) :=
  match expect [.instruction] ts with
  | .error e => .error e
  | .ok (mnemonic, ts) =>
  match parse_operands ts with
  | .error e => .error e
  | .ok (ops, ts) => .ok (.instruction_statement mnemonic ops, ts)

theorem parse_raw_length {ts ts' : List token} {s : stmt}
    (h : parse_raw ts = .ok (s, ts')) : ts'.length < ts.length := by
  simp only [parse_raw] at h
  split at h
  · simp at h
  next heq1 =>
  split at h
  · simp at h
  next heq2 =>
  split at h
  · simp at h
  next heq3 =>
  split at h
  · simp at h
  next heq4 =>
  simp only [Except.ok.injEq, Prod.mk.injEq] at h
  obtain ⟨-, rfl⟩ := h
  have h1 := expect_length heq1
  have h2 := expect_length heq2
  have h3 := expect_length heq3
  have h4 := expect_length heq4
  omega

theorem parse_define_length {ts ts' : List token} {s : stmt}
    (h : parse_define ts = .ok (s, ts')) : ts'.length < ts.length := by
  simp only [parse_define] at h
  split at h
  · simp at h
  next heq1 =>
  split at h
  · simp at h
  next heq2 =>
  split at h
  · simp at h
  next heq3 =>
  simp only [Except.ok.injEq, Prod.mk.injEq] at h
  obtain ⟨-, rfl⟩ := h
  have h1 := expect_length heq1
  have h2 := expect_length heq2
  have h3 := expect_length heq3
  omega

theorem parse_config_length {ts ts' : List token} {s : stmt}
    (h : parse_config ts = .ok (s, ts')) : ts'.length < ts.length := by
  simp only [parse_config] at h
  split at h
  · simp at h
  next heq1 =>
  split at h
  · simp at h
  next heq2 =>
  split at h
  · simp at h
  next heq3 =>
  split at h
  · simp at h
  next heq4 =>
  simp only [Except.ok.injEq, Prod.mk.injEq] at h
  obtain ⟨-, rfl⟩ := h
  have h1 := expect_length heq1
  have h2 := expect_length heq2
  have h3 := expect_length heq3
  have h4 := expect_length heq4
  omega

theorem parse_operands_length (ts : List token) {ops : List operand} {ts' : List token}
    (h : parse_operands ts = .ok (ops, ts')) : ts'.length ≤ ts.length := by
  rw [parse_operands] at h
  split at h
  · split at h
    · simp at h
    next op rest hop =>
      split at h
      next rest' hadv =>
        split at h
        · simp at h
        next ops2 rest'' hrec =>
          simp only [Except.ok.injEq, Prod.mk.injEq] at h
          obtain ⟨-, rfl⟩ := h
          have h1 := parse_operand_length hop
          have h2 := advance_if_true_length hadv
          have hlt : rest'.length < ts.length := by omega
          have h3 := parse_operands_length rest' hrec
          omega
      next snd hadv =>
        simp only [Except.ok.injEq, Prod.mk.injEq] at h
        obtain ⟨-, rfl⟩ := h
        have h1 := parse_operand_length hop
        omega
  · simp only [Except.ok.injEq, Prod.mk.injEq] at h
    obtain ⟨-, rfl⟩ := h
    omega
  termination_by ts.length
  decreasing_by assumption

theorem parse_instruction_length {ts ts' : List token} {s : stmt}
    (h : parse_instruction ts = .ok (s, ts')) : ts'.length < ts.length := by
  simp only [parse_instruction] at h
  split at h
  · simp at h
  next heq1 =>
  split at h
  · simp at h
  next heq2 =>
  simp only [Except.ok.injEq, Prod.mk.injEq] at h
  obtain ⟨-, rfl⟩ := h
  have h1 := expect_length heq1
  have h2 := parse_operands_length _ heq2
  omega

theorem sprite_rows_length (name : String) (acc : List Nat) (us : List token)
    {rows : List Nat} {us' : List token}
    (h : sprite_rows name acc us = .ok (rows, us')) : us'.length ≤ us.length := by
  match us with
  | [] => simp [sprite_rows] at h
  | [t] =>
    rw [sprite_rows.eq_2] at h
    split at h
    · split at h
      · simp at h
      · split at h
        · simp at h
        · simp only [Except.ok.injEq, Prod.mk.injEq] at h
          obtain ⟨-, rfl⟩ := h
          simp
    · simp at h
  | t :: t2 :: ts2 =>
    rw [sprite_rows.eq_3] at h
    split at h
    · split at h
      · simp at h
      · split at h
        · simp at h
        · split at h
          · have := sprite_rows_length name (acc ++ [t.to_integer]) ts2 h
            simp only [List.length_cons] at *
            omega
          · simp only [Except.ok.injEq, Prod.mk.injEq] at h
            obtain ⟨-, rfl⟩ := h
            simp
    · simp at h

theorem parse_sprite_length {ts ts' : List token} {s : stmt}
    (h : parse_sprite ts = .ok (s, ts')) : ts'.length < ts.length := by
  simp only [parse_sprite] at h
  split at h
  · simp at h
  next heq1 =>
  split at h
  · simp at h
  next heq2 =>
  split at h
  · simp at h
  next heq3 =>
  split at h
  · simp at h
  next heq4 =>
  split at h
  · simp at h
  next heq5 =>
  simp only [Except.ok.injEq, Prod.mk.injEq] at h
  obtain ⟨-, rfl⟩ := h
  have h1 := expect_length heq1
  have h2 := expect_length heq2
  have h3 := expect_length heq3
  have h4 := sprite_rows_length _ _ _ heq4
  have h5 := expect_length heq5
  omega

/-- The nested-statement loop of `parser::parse_label`: parsing stops
(without consuming) at end of input, at a `proc` end keyword or at another
`.name:` label; `define`, `config`, `raw` and instructions are parsed as
nested statements; any other token is an `UnexpectedToken` error. -/
def parse_label_body (ts : List token) : Except parse_error (List stmt × List token) :=
  match ts with
  | [] => .ok ([], [])
  | t :: rest =>
    match t.type with
    | .keyword_proc_end => .ok ([], t :: rest)
    | .dot_label => .ok ([], t :: rest)
    | .keyword_define =>
      match hp : parse_define (t :: rest) with
      | .error e => .error e
      | .ok (s, rest') =>
        match parse_label_body rest' with
        | .error e => .error e
        | .ok (ss, rest'') => .ok (s :: ss, rest'')
    | .keyword_config =>
      match hp : parse_config (t :: rest) with
      | .error e => .error e
      | .ok (s, rest') =>
        match parse_label_body rest' with
        | .error e => .error e
        | .ok (ss, rest'') => .ok (s :: ss, rest'')
    | .keyword_raw =>
      match hp : parse_raw (t :: rest) with
      | .error e => .error e
      | .ok (s, rest') =>
        match parse_label_body rest' with
        | .error e => .error e
        | .ok (ss, rest'') => .ok (s :: ss, rest'')
    | .instruction =>
      match hp : parse_instruction (t :: rest) with
      | .error e => .error e
      | .ok (s, rest') =>
        match parse_label_body rest' with
        | .error e => .error e
        | .ok (ss, rest'') => .ok (s :: ss, rest'')
    | _ => .error (.unexpected t)
  termination_by ts.length
  decreasing_by
  · exact parse_define_length hp
  · exact parse_config_length hp
  · exact parse_raw_length hp
  · exact parse_instruction_length hp

/-- `parser::parse_label`: `.name:` followed by the nested statements. -/
def parse_label (ts : List token) : Except parse_error (stmt × List token) :=
  match expect [.dot_label] ts with
  | .error e => .error e
  | .ok (_, ts) =>
  match expect [.identifier] ts with
  | .error e => .error e
  | .ok (identifier, ts) =>
  match expect [.colon] ts with
  | .error e => .error e
  | .ok (_, ts) =>
  match parse_label_body ts with
  | .error e => .error e
  | .ok (inner, ts) => .ok (.label_statement identifier inner, ts)

theorem parse_label_body_length (ts : List token) {ss : List stmt} {ts' : List token}
    (h : parse_label_body ts = .ok (ss, ts')) : ts'.length ≤ ts.length := by
  match ts with
  | [] =>
    rw [parse_label_body] at h
    simp only [Except.ok.injEq, Prod.mk.injEq] at h
    obtain ⟨-, rfl⟩ := h
    omega
  | t :: rest =>
  rw [parse_label_body] at h
  split at h <;>
    first
    | (simp only [Except.ok.injEq, Prod.mk.injEq] at h
       obtain ⟨-, rfl⟩ := h
       omega)
    | simp at h
    | (split at h
       · simp at h
       next s rest' hp =>
         split at h
         · simp at h
         next ss2 rest'' hrec =>
           simp only [Except.ok.injEq, Prod.mk.injEq] at h
           obtain ⟨-, rfl⟩ := h
           exact le_trans (parse_label_body_length rest' hrec)
             (le_of_lt (by
               first
               | exact parse_define_length hp
               | exact parse_config_length hp
               | exact parse_raw_length hp
               | exact parse_instruction_length hp)))
  termination_by ts.length
  decreasing_by
    all_goals
      first
      | exact parse_define_length (by assumption)
      | exact parse_config_length (by assumption)
      | exact parse_raw_length (by assumption)
      | exact parse_instruction_length (by assumption)

theorem parse_label_length {ts ts' : List token} {s : stmt}
    (h : parse_label ts = .ok (s, ts')) : ts'.length < ts.length := by
  simp only [parse_label] at h
  split at h
  · simp at h
  next heq1 =>
  split at h
  · simp at h
  next heq2 =>
  split at h
  · simp at h
  next heq3 =>
  split at h
  · simp at h
  next heq4 =>
  simp only [Except.ok.injEq, Prod.mk.injEq] at h
  obtain ⟨-, rfl⟩ := h
  have h1 := expect_length heq1
  have h2 := expect_length heq2
  have h3 := expect_length heq3
  have h4 := parse_label_body_length _ heq4
  omega

/-- The nested-statement loop of `parser::parse_procedure`
(`parse_inner_statement`): running out of tokens inside a procedure body is
a fatal error; the loop stops (without consuming) at the `endp` keyword;
`define`, `config`, `raw`, instructions and labels parse as nested
statements; a nested `proc` keyword is the fatal nested-procedure error;
any other token is an `UnexpectedToken` error. -/
def parse_proc_body (ts : List token) : Except parse_error (List stmt × List token) :=
  match ts with
  | [] => .error .unexpected_eof
  | t :: rest =>
    match t.type with
    | .keyword_proc_end => .ok ([], t :: rest)
    | .keyword_proc_start => .error .nested_procedure
    | .keyword_define =>
      match hp : parse_define (t :: rest) with
      | .error e => .error e
      | .ok (s, rest') =>
        match parse_proc_body rest' with
        | .error e => .error e
        | .ok (ss, rest'') => .ok (s :: ss, rest'')
    | .keyword_config =>
      match hp : parse_config (t :: rest) with
      | .error e => .error e
      | .ok (s, rest') =>
        match parse_proc_body rest' with
        | .error e => .error e
        | .ok (ss, rest'') => .ok (s :: ss, rest'')
    | .keyword_raw =>
      match hp : parse_raw (t :: rest) with
      | .error e => .error e
      | .ok (s, rest') =>
        match parse_proc_body rest' with
        | .error e => .error e
        | .ok (ss, rest'') => .ok (s :: ss, rest'')
    | .instruction =>
      match hp : parse_instruction (t :: rest) with
      | .error e => .error e
      | .ok (s, rest') =>
        match parse_proc_body rest' with
        | .error e => .error e
        | .ok (ss, rest'') => .ok (s :: ss, rest'')
    | .dot_label =>
      match hp : parse_label (t :: rest) with
      | .error e => .error e
      | .ok (s, rest') =>
        match parse_proc_body rest' with
        | .error e => .error e
        | .ok (ss, rest'') => .ok (s :: ss, rest'')
    | _ => .error (.unexpected t)
  termination_by ts.length
  decreasing_by
  · exact parse_define_length hp
  · exact parse_config_length hp
  · exact parse_raw_length hp
  · exact parse_instruction_length hp
  · exact parse_label_length hp

/-- `parser::parse_procedure`: `proc name <nested statements> endp name`,
with the final check that the closing identifier's payload equals the
opening identifier's payload, else the `UnmatchingProcedureNames` error
carrying both name tokens. -/
def parse_procedure (ts : List token) : Except parse_error (stmt × List token) :=
  match expect [.keyword_proc_start] ts with
  | .error e => .error e
  | .ok (_, ts) =>
  match expect [.identifier] ts with
  | .error e => .error e
  | .ok (proc_name_beg, ts) =>
  match parse_proc_body ts with
  | .error e => .error e
  | .ok (inner, ts) =>
  match expect [.keyword_proc_end] ts with
  | .error e => .error e
  | .ok (_, ts) =>
  match expect [.identifier] ts with
  | .error e => .error e
  | .ok (proc_name_end, ts) =>
  if proc_name_end.data ≠ proc_name_beg.data then
    .error (.unmatching_procedure_names proc_name_beg proc_name_end)
  else
    .ok (.procedure_statement proc_name_beg proc_name_end inner, ts)

theorem parse_proc_body_length (ts : List token) {ss : List stmt} {ts' : List token}
    (h : parse_proc_body ts = .ok (ss, ts')) : ts'.length ≤ ts.length := by
  match ts with
  | [] => simp [parse_proc_body] at h
  | t :: rest =>
  rw [parse_proc_body] at h
  split at h <;>
    first
    | (simp only [Except.ok.injEq, Prod.mk.injEq] at h
       obtain ⟨-, rfl⟩ := h
       omega)
    | simp at h
    | (split at h
       · simp at h
       next s rest' hp =>
         split at h
         · simp at h
         next ss2 rest'' hrec =>
           simp only [Except.ok.injEq, Prod.mk.injEq] at h
           obtain ⟨-, rfl⟩ := h
           exact le_trans (parse_proc_body_length rest' hrec)
             (le_of_lt (by
               first
               | exact parse_define_length hp
               | exact parse_config_length hp
               | exact parse_raw_length hp
               | exact parse_instruction_length hp
               | exact parse_label_length hp)))
  termination_by ts.length
  decreasing_by
    all_goals
      first
      | exact parse_define_length (by assumption)
      | exact parse_config_length (by assumption)
      | exact parse_raw_length (by assumption)
      | exact parse_instruction_length (by assumption)
      | exact parse_label_length (by assumption)

theorem parse_procedure_length {ts ts' : List token} {s : stmt}
    (h : parse_procedure ts = .ok (s, ts')) : ts'.length < ts.length := by
  simp only [parse_procedure] at h
  split at h
  · simp at h
  next heq1 =>
  split at h
  · simp at h
  next heq2 =>
  split at h
  · simp at h
  next heq3 =>
  split at h
  · simp at h
  next heq4 =>
  split at h
  · simp at h
  next heq5 =>
  split at h
  · simp at h
  · simp only [Except.ok.injEq, Prod.mk.injEq] at h
    obtain ⟨-, rfl⟩ := h
    have h1 := expect_length heq1
    have h2 := expect_length heq2
    have h3 := parse_proc_body_length _ heq3
    have h4 := expect_length heq4
    have h5 := expect_length heq5
    omega

/-- `parser::parse_primary_statement`: returns no statement once the tokens
are exhausted; otherwise dispatches on the current token kind, raising
`UnexpectedToken` for any kind that cannot start a statement (the explicit
`eof` kind included). -/
def parse_primary_statement (ts : List token) : Except parse_error (Option stmt × List token) :=
  match ts with
  | [] => .ok (none, [])
  | t :: rest =>
    match t.type with
    | .keyword_define =>
      match parse_define (t :: rest) with
      | .error e => .error e
      | .ok (s, ts') => .ok (some s, ts')
    | .keyword_config =>
      match parse_config (t :: rest) with
      | .error e => .error e
      | .ok (s, ts') => .ok (some s, ts')
    | .keyword_sprite =>
      match parse_sprite (t :: rest) with
      | .error e => .error e
      | .ok (s, ts') => .ok (some s, ts')
    | .keyword_raw =>
      match parse_raw (t :: rest) with
      | .error e => .error e
      | .ok (s, ts') => .ok (some s, ts')
    | .dot_label =>
      match parse_label (t :: rest) with
      | .error e => .error e
      | .ok (s, ts') => .ok (some s, ts')
    | .keyword_proc_start =>
      match parse_procedure (t :: rest) with
      | .error e => .error e
      | .ok (s, ts') => .ok (some s, ts')
    | .instruction =>
      match parse_instruction (t :: rest) with
      | .error e => .error e
      | .ok (s, ts') => .ok (some s, ts')
    | _ => .error (.unexpected t)

theorem parse_primary_statement_some_length {ts ts' : List token} {s : stmt}
    (h : parse_primary_statement ts = .ok (some s, ts')) : ts'.length < ts.length := by
  match ts with
  | [] => simp [parse_primary_statement] at h
  | t :: rest =>
    rw [parse_primary_statement] at h
    split at h <;>
      first
      | simp at h
      | (split at h
         · simp at h
         next s2 rest' hp =>
           simp only [Except.ok.injEq, Prod.mk.injEq, Option.some.injEq] at h
           obtain ⟨-, rfl⟩ := h
           first
           | exact parse_define_length hp
           | exact parse_config_length hp
           | exact parse_sprite_length hp
           | exact parse_raw_length hp
           | exact parse_label_length hp
           | exact parse_procedure_length hp
           | exact parse_instruction_length hp)

/-- `parser::make_tree`: repeatedly parse primary statements until no more
tokens remain, collecting the top-level ordered statement sequence. -/
def make_tree (ts : List token) : Except parse_error abstract_tree :=
  match hp : parse_primary_statement ts with
  | .error e => .error e
  | .ok (none, _) => .ok ⟨[]⟩
  | .ok (some s, rest) =>
    match make_tree rest with
    | .error e => .error e
    | .ok tree => .ok ⟨s :: tree.statements⟩
  termination_by ts.length
  decreasing_by
    exact parse_primary_statement_some_length hp

/-- Symbol categories of the single namespace managed by the symbol
sanitizer (defines, configs, labels, procedures, sprites). -/
inductive sym_kind where
  | sym_define
  | sym_config
  | sym_label
  | sym_proc
  | sym_sprite
  deriving DecidableEq, Repr

/-- Reference categories a symbolic operand can demand: a label reference
(`@name`), a procedure reference (`$name`), a sprite reference (`#name`),
or a value use (a bare identifier standing for a define/config value). -/
inductive ref_kind where
  | ref_label
  | ref_proc
  | ref_sprite
  | ref_value
  deriving DecidableEq, Repr

/-- Modelled from the spec: the declaration-collection walk of the symbol
sanitizer (`symbol_sanitizer.cpp` is not under `src/`): every `define`,
`config`, `sprite`, `label` and `procedure` name in the tree, nested
scopes included, with its category. -/
def stmt.decls : stmt → List (String × sym_kind)
  | .define_statement n _ => [(n.to_string, .sym_define)]
  | .config_statement n _ => [(n.to_string, .sym_config)]
  | .sprite_statement n _ => [(n.to_string, .sym_sprite)]
  | .raw_statement _ => []
  | .label_statement n inner =>
    (n.to_string, .sym_label) :: inner.attach.flatMap (fun ⟨s, _⟩ => s.decls)
  | .procedure_statement n _ inner =>
    (n.to_string, .sym_proc) :: inner.attach.flatMap (fun ⟨s, _⟩ => s.decls)
  | .instruction_statement _ _ => []

/-- Modelled from the spec: the symbolic references an operand makes
(`@name` needs a label, `$name` a procedure, `#name` a sprite, and an
identifier in immediate or indirect position is a define/config value
use).  Register operands and numeric payloads reference nothing. -/
def operand.refs : operand → List (String × ref_kind)
  | .reg _ => []
  | .imm t =>
    match t.data with
    | .str s => [(s, .ref_value)]
    | .num _ => []
  | .lbl t => [(t.to_string, .ref_label)]
  | .prc t => [(t.to_string, .ref_proc)]
  | .spr t => [(t.to_string, .ref_sprite)]
  | .indirect t =>
    match t.data with
    | .str s => [(s, .ref_value)]
    | .num _ => []

/-- Modelled from the spec: the reference-collection walk of the symbol
sanitizer over the whole tree, nested scopes included.  A `raw(identifier)`
statement is a value use of that identifier. -/
def stmt.refs : stmt → List (String × ref_kind)
  | .define_statement _ _ => []
  | .config_statement _ _ => []
  | .sprite_statement _ _ => []
  | .raw_statement t =>
    match t.data with
    | .str s => [(s, .ref_value)]
    | .num _ => []
  | .label_statement _ inner => inner.attach.flatMap (fun ⟨s, _⟩ => s.refs)
  | .procedure_statement _ _ inner => inner.attach.flatMap (fun ⟨s, _⟩ => s.refs)
  | .instruction_statement _ ops => ops.flatMap operand.refs

/-- Modelled from the spec: the names whose `define`/`config` value is the
`default` marker, which the sanitizer must resolve against the
architecture's declared defaults. -/
def stmt.default_uses : stmt → List String
  | .define_statement n v =>
    if v.type = .keyword_default then [n.to_string] else []
  | .config_statement n v =>
    if v.type = .keyword_default then [n.to_string] else []
  | .label_statement _ inner => inner.attach.flatMap (fun ⟨s, _⟩ => s.default_uses)
  | .procedure_statement _ _ inner => inner.attach.flatMap (fun ⟨s, _⟩ => s.default_uses)
  | _ => []

/-- Modelled from the spec: the architecture's declared per-symbol default
values.  The descriptor's table is not shown in the repository sources, so
it is modelled as empty (no symbol has a declared default). -/
def arch_config_defaults : String → Option Nat :=
  fun _ => none

/-- First name occurring twice in the list, if any. -/
def first_dup : List String → Option String
  | [] => none
  | n :: rest => if n ∈ rest then some n else first_dup rest

/-- Does a symbolic reference resolve to a declared symbol of the matching
category?  A value use accepts a define or a config. -/
def resolves (ds : List (String × sym_kind)) : String × ref_kind → Bool
  | (n, .ref_label) => ds.contains (n, .sym_label)
  | (n, .ref_proc) => ds.contains (n, .sym_proc)
  | (n, .ref_sprite) => ds.contains (n, .sym_sprite)
  | (n, .ref_value) => ds.contains (n, .sym_define) || ds.contains (n, .sym_config)

/-- Generation-stage failure values (naming conflicts, unresolved symbols,
missing defaults, and the encoder's shape/width errors). -/
inductive build_error where
  | duplicate_symbol (name : String)
  | undefined_symbol (name : String)
  | no_default_value (name : String)
  | unknown_instruction (mnemonic : String)
  | operand_mismatch (mnemonic : String)
  | immediate_overflow (value fmt : Nat)
  deriving DecidableEq, Repr

/-- Modelled from the spec: `abstract_tree::sanitize` delegating to
`symbol_sanitizer::traverse` (not under `src/`): register every declared
name of the whole tree into one namespace, failing on a name collision;
then check every symbolic reference resolves to a declared symbol of the
matching category; then check every `default` marker has an
architecture-declared default value. -/
def abstract_tree.sanitize (t : abstract_tree) : Except build_error Unit :=
  let ds := t.statements.flatMap stmt.decls
  match first_dup (ds.map Prod.fst) with
  | some n => .error (.duplicate_symbol n)
  | none =>
  match (t.statements.flatMap stmt.refs).find? (fun r => ! resolves ds r) with
  | some r => .error (.undefined_symbol r.1)
  | none =>
  match (t.statements.flatMap stmt.default_uses).find? (fun n => (arch_config_defaults n).isNone) with
  | some n => .error (.no_default_value n)
  | none => .ok ()

/-- The statement ordering relation of `abstract_tree::generate`: `a` may
precede `b` when `a`'s priority is at least `b`'s (the C++ comparator is
the strict `a->priority() > b->priority()`; this is the corresponding
non-strict relation a stable sort keeps). -/
def stmt_ge (a b : stmt) : Prop := b.priority ≤ a.priority

instance : DecidableRel stmt_ge := fun a b => Nat.decLe b.priority a.priority

instance : IsTotal stmt stmt_ge := ⟨fun a b => Nat.le_total b.priority a.priority⟩

instance : IsTrans stmt stmt_ge := ⟨fun _ _ _ h1 h2 => Nat.le_trans h2 h1⟩

/-- The `std::ranges::stable_sort` call of `abstract_tree::generate`,
keyed on descending statement priority.  A stable sort is extensionally
determined by its comparator, and insertion sort realises the stable-sort
contract: elements the comparator ties (equal priorities) keep their
original relative order. -/
def sortStmts (l : List stmt) : List stmt :=
  l.insertionSort stmt_ge

/-- Code items the generator's layout pass emits one 16-bit word for. -/
inductive emit_item where
  | raw_item (t : token)
  | instr_item (mnemonic : token) (ops : List operand)
  deriving Repr

/-- Modelled from the spec: the generator's layout pass (the generator is
not under `src/`): walk the ordered statements once from the fixed load
base, instructions and raw statements occupying one 16-bit word (two
bytes) each; a label or procedure name is bound to the address current
when it is reached (the address of its first emitting statement, or of the
next one if its body is empty); defines, configs and sprites emit no code
words.  Returns the emitting items in order, the label address binds, the
procedure address binds, and the first address after the code region. -/
def layout : List stmt → Nat → List emit_item × List (String × Nat) × List (String × Nat) × Nat
  | [], addr => ([], [], [], addr)
  | .raw_statement t :: rest, addr =>
    let (items, lbinds, pbinds, a) := layout rest (addr + 2)
    (.raw_item t :: items, lbinds, pbinds, a)
  | .instruction_statement m ops :: rest, addr =>
    let (items, lbinds, pbinds, a) := layout rest (addr + 2)
    (.instr_item m ops :: items, lbinds, pbinds, a)
  | .label_statement n inner :: rest, addr =>
    let (bitems, blbinds, bpbinds, a1) := layout inner addr
    let (items, lbinds, pbinds, a2) := layout rest a1
    (bitems ++ items, (n.to_string, addr) :: (blbinds ++ lbinds), bpbinds ++ pbinds, a2)
  | .procedure_statement n _ inner :: rest, addr =>
    let (bitems, blbinds, bpbinds, a1) := layout inner addr
    let (items, lbinds, pbinds, a2) := layout rest a1
    (bitems ++ items, blbinds ++ lbinds, (n.to_string, addr) :: (bpbinds ++ pbinds), a2)
  | .define_statement _ _ :: rest, addr => layout rest addr
  | .config_statement _ _ :: rest, addr => layout rest addr
  | .sprite_statement _ _ :: rest, addr => layout rest addr

/-- Modelled from the spec: the sprites of the tree in statement order,
each with its row bytes (sprite data is packed after the code region). -/
def sprites_of : List stmt → List (String × List Nat)
  | [] => []
  | .sprite_statement n rows :: rest => (n.to_string, rows) :: sprites_of rest
  | .label_statement _ inner :: rest => sprites_of inner ++ sprites_of rest
  | .procedure_statement _ _ inner :: rest => sprites_of inner ++ sprites_of rest
  | _ :: rest => sprites_of rest

/-- Sprite addresses: consecutive byte runs starting at the end of the
code region. -/
def sprite_addrs : List (String × List Nat) → Nat → List (String × Nat)
  | [], _ => []
  | (n, rows) :: rest, a => (n, a) :: sprite_addrs rest (a + rows.length)

/-- Modelled from the spec: the define/config value bindings of the tree
(name to value token), nested scopes included. -/
def value_binds : List stmt → List (String × token)
  | [] => []
  | .define_statement n v :: rest => (n.to_string, v) :: value_binds rest
  | .config_statement n v :: rest => (n.to_string, v) :: value_binds rest
  | .label_statement _ inner :: rest => value_binds inner ++ value_binds rest
  | .procedure_statement _ _ inner :: rest => value_binds inner ++ value_binds rest
  | _ :: rest => value_binds rest

/-- Resolve one define/config value token: a numeric payload is its value;
the `default` marker takes the architecture's declared default, failing
when none is declared. -/
def resolve_value_token (n : String) (t : token) : Except build_error Nat :=
  match t.type with
  | .keyword_default =>
    match arch_config_defaults n with
    | some v => .ok v
    | none => .error (.no_default_value n)
  | _ => .ok t.to_integer

/-- The resolved define/config value environment. -/
def build_env : List (String × token) → Except build_error (List (String × Nat))
  | [] => .ok []
  | (n, t) :: rest =>
    match resolve_value_token n t with
    | .error e => .error e
    | .ok v =>
      match build_env rest with
      | .error e => .error e
      | .ok env => .ok ((n, v) :: env)

/-- Modelled from the spec: resolving one operand to the numeric field it
contributes to an instruction word: immediates take their numeric payload
or the referenced define/config value; label, procedure and sprite
references take the resolved address; indirect operands take the numeric
or resolved value inside the brackets; a register operand carries a
register index, not a free value, so asking for its value is an operand
shape mismatch. -/
def operand_value (mn : String) (env labels procs sprites : List (String × Nat)) :
    operand → Except build_error Nat
  | .reg _ => .error (.operand_mismatch mn)
  | .imm t =>
    match t.data with
    | .num v => .ok v
    | .str s =>
      match env.lookup s with
      | some v => .ok v
      | none => .error (.undefined_symbol s)
  | .lbl t =>
    match labels.lookup t.to_string with
    | some v => .ok v
    | none => .error (.undefined_symbol t.to_string)
  | .prc t =>
    match procs.lookup t.to_string with
    | some v => .ok v
    | none => .error (.undefined_symbol t.to_string)
  | .spr t =>
    match sprites.lookup t.to_string with
    | some v => .ok v
    | none => .error (.undefined_symbol t.to_string)
  | .indirect t =>
    match t.data with
    | .num v => .ok v
    | .str s =>
      match env.lookup s with
      | some v => .ok v
      | none => .error (.undefined_symbol s)

/-- Modelled from the spec: the mnemonic-to-opcode-template table.  The
spec leaves the full table to the architecture descriptor (an explicit
open question), so a representative CHIP-8-class fragment is modelled:
`cls`/`ret` take no operand; `jmp`, `call` and `ldi` take one
addressable operand encoded as a 12-bit field.  An immediate wider than
the template's field and an operand count/kind mismatch are fatal. -/
def encode_instruction (m : token) (ops : List operand)
    (env labels procs sprites : List (String × Nat)) : Except build_error Nat :=
  match m.to_string, ops with
  | "cls", [] => .ok 0x00E0
  | "ret", [] => .ok 0x00EE
  | "jmp", [o] =>
    match operand_value "jmp" env labels procs sprites o with
    | .error e => .error e
    | .ok v =>
      if imm_matches_format v fmt_imm12 then .ok (0x1000 + v)
      else .error (.immediate_overflow v fmt_imm12)
  | "call", [o] =>
    match operand_value "call" env labels procs sprites o with
    | .error e => .error e
    | .ok v =>
      if imm_matches_format v fmt_imm12 then .ok (0x2000 + v)
      else .error (.immediate_overflow v fmt_imm12)
  | "ldi", [o] =>
    match operand_value "ldi" env labels procs sprites o with
    | .error e => .error e
    | .ok v =>
      if imm_matches_format v fmt_imm12 then .ok (0xA000 + v)
      else .error (.immediate_overflow v fmt_imm12)
  | mn, _ => .error (.unknown_instruction mn)

/-- Encode the laid-out code items to machine words: a raw statement emits
its literal value or the referenced define/config value; an instruction is
encoded through the opcode-template table. -/
def encode_items (env labels procs sprites : List (String × Nat)) :
    List emit_item → Except build_error (List Nat)
  | [] => .ok []
  | .raw_item t :: rest =>
    match (match t.data with
           | .num v => Except.ok v
           | .str s =>
             match env.lookup s with
             | some v => Except.ok v
             | none => Except.error (build_error.undefined_symbol s)) with
    | .error e => .error e
    | .ok v =>
      match encode_items env labels procs sprites rest with
      | .error e => .error e
      | .ok ws => .ok (v :: ws)
  | .instr_item m ops :: rest =>
    match encode_instruction m ops env labels procs sprites with
    | .error e => .error e
    | .ok w =>
      match encode_items env labels procs sprites rest with
      | .error e => .error e
      | .ok ws => .ok (w :: ws)

/-- Modelled from the spec: `generator::generate` on the already-sorted
statement sequence: build the value environment, lay out the code region
from the load base, place sprite data right after the code region, encode
every code item, and append the sprite rows to the program image (the
spec leaves the row packing convention to the architecture; one row per
output word is used). -/
def gen_words (sorted : List stmt) : Except build_error (List Nat) :=
  match build_env (value_binds sorted) with
  | .error e => .error e
  | .ok env =>
  match layout sorted base_address with
  | (items, labels, procs, code_end) =>
  let sprites := sprites_of sorted
  let sbinds := sprite_addrs sprites code_end
  match encode_items env labels procs sbinds items with
  | .error e => .error e
  | .ok ws => .ok (ws ++ sprites.flatMap Prod.snd)

/-- `abstract_tree::generate` (`src/src/ast.cpp`): first the
symbol-resolution pass (`sanitize`), then the stable sort of the top-level
statements by descending priority, then code generation on the sorted
sequence. -/
def abstract_tree.generate (t : abstract_tree) : Except build_error (List Nat) :=
  match t.sanitize with
  | .error e => .error e
  | .ok _ => gen_words (sortStmts t.statements)

/-- A failure of the front-to-back pipeline: a parse error or a
generation-stage error. -/
inductive pipeline_error where
  | parse_failure (e : parse_error)
  | build_failure (e : build_error)
  deriving DecidableEq, Repr

/-- The front-to-back pipeline on a token sequence: build the tree, then
generate the machine words. -/
def compile (ts : List token) : Except pipeline_error (List Nat) :=
  match make_tree ts with
  | .error e => .error (.parse_failure e)
  | .ok tree =>
    match tree.generate with
    | .error e => .error (.build_failure e)
    | .ok words => .ok words

/-- Every `eof`-kinded token of `ts` survives into `ts'` (the tokens a
parser consumed contained no `eof` token). -/
def eof_kept (ts ts' : List token) : Prop :=
  ∀ t ∈ ts, t.type = .eof → t ∈ ts'

theorem eof_kept_refl (ts : List token) : eof_kept ts ts :=
  fun _ ht _ => ht

theorem eof_kept_trans {ts1 ts2 ts3 : List token}
    (h1 : eof_kept ts1 ts2) (h2 : eof_kept ts2 ts3) : eof_kept ts1 ts3 :=
  fun t ht he => h2 t (h1 t ht he) he

theorem expect_eof_kept {allowed : List token_type} {ts ts' : List token} {t' : token}
    (hna : token_type.eof ∉ allowed)
    (h : expect allowed ts = .ok (t', ts')) : eof_kept ts ts' := by
  match ts with
  | [] => simp [expect] at h
  | u :: us =>
    simp only [expect] at h
    split at h
    · next hmem =>
      simp only [Except.ok.injEq, Prod.mk.injEq] at h
      obtain ⟨rfl, rfl⟩ := h
      intro t ht he
      rcases List.mem_cons.mp ht with rfl | hm
      · exact absurd (he ▸ hmem) hna
      · exact hm
    · simp at h

theorem advance_if_eof_kept {tt : token_type} {ts ts' : List token} {b : Bool}
    (hna : tt ≠ .eof)
    (h : advance_if tt ts = (b, ts')) : eof_kept ts ts' := by
  match ts with
  | [] =>
    simp only [advance_if, Prod.mk.injEq] at h
    obtain ⟨-, rfl⟩ := h
    exact eof_kept_refl []
  | u :: us =>
    simp only [advance_if] at h
    split at h
    · next htype =>
      simp only [Prod.mk.injEq] at h
      obtain ⟨-, rfl⟩ := h
      intro t ht he
      rcases List.mem_cons.mp ht with rfl | hm
      · exact absurd (htype.symm.trans he) (by intro hh; exact hna (hh ▸ rfl))
      · exact hm
    · simp only [Prod.mk.injEq] at h
      obtain ⟨-, rfl⟩ := h
      exact eof_kept_refl _

theorem parse_raw_eof_kept {ts ts' : List token} {s : stmt}
    (h : parse_raw ts = .ok (s, ts')) : eof_kept ts ts' := by
  simp only [parse_raw] at h
  split at h
  · simp at h
  next heq1 =>
  split at h
  · simp at h
  next heq2 =>
  split at h
  · simp at h
  next heq3 =>
  split at h
  · simp at h
  next heq4 =>
  simp only [Except.ok.injEq, Prod.mk.injEq] at h
  obtain ⟨-, rfl⟩ := h
  exact eof_kept_trans (expect_eof_kept (by decide) heq1)
    (eof_kept_trans (expect_eof_kept (by decide) heq2)
      (eof_kept_trans (expect_eof_kept (by decide) heq3)
        (expect_eof_kept (by decide) heq4)))

theorem parse_define_eof_kept {ts ts' : List token} {s : stmt}
    (h : parse_define ts = .ok (s, ts')) : eof_kept ts ts' := by
  simp only [parse_define] at h
  split at h
  · simp at h
  next heq1 =>
  split at h
  · simp at h
  next heq2 =>
  split at h
  · simp at h
  next heq3 =>
  simp only [Except.ok.injEq, Prod.mk.injEq] at h
  obtain ⟨-, rfl⟩ := h
  exact eof_kept_trans (expect_eof_kept (by decide) heq1)
    (eof_kept_trans (expect_eof_kept (by decide) heq2)
      (expect_eof_kept (by decide) heq3))

theorem parse_config_eof_kept {ts ts' : List token} {s : stmt}
    (h : parse_config ts = .ok (s, ts')) : eof_kept ts ts' := by
  simp only [parse_config] at h
  split at h
  · simp at h
  next heq1 =>
  split at h
  · simp at h
  next heq2 =>
  split at h
  · simp at h
  next heq3 =>
  split at h
  · simp at h
  next heq4 =>
  simp only [Except.ok.injEq, Prod.mk.injEq] at h
  obtain ⟨-, rfl⟩ := h
  exact eof_kept_trans (expect_eof_kept (by decide) heq1)
    (eof_kept_trans (expect_eof_kept (by decide) heq2)
      (eof_kept_trans (expect_eof_kept (by decide) heq3)
        (expect_eof_kept (by decide) heq4)))

theorem sprite_rows_eof_kept (name : String) (acc : List Nat) (us : List token)
    {rows : List Nat} {us' : List token}
    (h : sprite_rows name acc us = .ok (rows, us')) : eof_kept us us' := by
  match us with
  | [] => simp [sprite_rows] at h
  | [t] =>
    rw [sprite_rows.eq_2] at h
    split at h
    · next htype =>
      split at h
      · simp at h
      · split at h
        · simp at h
        · simp only [Except.ok.injEq, Prod.mk.injEq] at h
          obtain ⟨-, rfl⟩ := h
          intro u hu he
          rcases List.mem_singleton.mp hu with rfl
          rw [he] at htype
          exact absurd htype (by decide)
    · simp at h
  | t :: t2 :: ts2 =>
    rw [sprite_rows.eq_3] at h
    split at h
    · next htype =>
      split at h
      · simp at h
      · split at h
        · simp at h
        · split at h
          · next htype2 =>
            have ih := sprite_rows_eof_kept name (acc ++ [t.to_integer]) ts2 h
            intro u hu he
            rcases List.mem_cons.mp hu with rfl | hu2
            · rw [he] at htype; exact absurd htype (by decide)
            rcases List.mem_cons.mp hu2 with rfl | hu3
            · rw [he] at htype2; exact absurd htype2 (by decide)
            · exact ih u hu3 he
          · simp only [Except.ok.injEq, Prod.mk.injEq] at h
            obtain ⟨-, rfl⟩ := h
            intro u hu he
            rcases List.mem_cons.mp hu with rfl | hu2
            · rw [he] at htype; exact absurd htype (by decide)
            · exact hu2
    · simp at h

theorem parse_sprite_eof_kept {ts ts' : List token} {s : stmt}
    (h : parse_sprite ts = .ok (s, ts')) : eof_kept ts ts' := by
  simp only [parse_sprite] at h
  split at h
  · simp at h
  next heq1 =>
  split at h
  · simp at h
  next heq2 =>
  split at h
  · simp at h
  next heq3 =>
  split at h
  · simp at h
  next heq4 =>
  split at h
  · simp at h
  next heq5 =>
  simp only [Except.ok.injEq, Prod.mk.injEq] at h
  obtain ⟨-, rfl⟩ := h
  exact eof_kept_trans (expect_eof_kept (by decide) heq1)
    (eof_kept_trans (expect_eof_kept (by decide) heq2)
      (eof_kept_trans (expect_eof_kept (by decide) heq3)
        (eof_kept_trans (sprite_rows_eof_kept _ _ _ heq4)
          (expect_eof_kept (by decide) heq5))))

theorem parse_operand_eof_kept {ts ts' : List token} {op : operand}
    (h : parse_operand ts = .ok (op, ts')) : eof_kept ts ts' := by
  simp only [parse_operand] at h
  split at h
  · simp at h
  next heq1 =>
  have k1 := expect_eof_kept (by decide) heq1
  split at h <;>
    first
    | (simp only [Except.ok.injEq, Prod.mk.injEq] at h
       obtain ⟨-, rfl⟩ := h
       exact k1)
    | (split at h
       · simp at h
       next heq2 =>
         first
         | (simp only [Except.ok.injEq, Prod.mk.injEq] at h
            obtain ⟨-, rfl⟩ := h
            exact eof_kept_trans k1 (expect_eof_kept (by decide) heq2))
         | (split at h
            · simp at h
            next heq3 =>
              simp only [Except.ok.injEq, Prod.mk.injEq] at h
              obtain ⟨-, rfl⟩ := h
              exact eof_kept_trans k1
                (eof_kept_trans (expect_eof_kept (by decide) heq2)
                  (expect_eof_kept (by decide) heq3))))

theorem parse_operands_eof_kept (ts : List token) {ops : List operand} {ts' : List token}
    (h : parse_operands ts = .ok (ops, ts')) : eof_kept ts ts' := by
  rw [parse_operands] at h
  split at h
  · split at h
    · simp at h
    next op rest hop =>
      split at h
      next rest' hadv =>
        split at h
        · simp at h
        next ops2 rest'' hrec =>
          simp only [Except.ok.injEq, Prod.mk.injEq] at h
          obtain ⟨-, rfl⟩ := h
          have h1 := parse_operand_length hop
          have h2 := advance_if_true_length hadv
          have hlt : rest'.length < ts.length := by omega
          exact eof_kept_trans (parse_operand_eof_kept hop)
            (eof_kept_trans (advance_if_eof_kept (by decide) hadv)
              (parse_operands_eof_kept rest' hrec))
      next snd hadv =>
        simp only [Except.ok.injEq, Prod.mk.injEq] at h
        obtain ⟨-, rfl⟩ := h
        exact parse_operand_eof_kept hop
  · simp only [Except.ok.injEq, Prod.mk.injEq] at h
    obtain ⟨-, rfl⟩ := h
    exact eof_kept_refl ts
  termination_by ts.length
  decreasing_by assumption

theorem parse_instruction_eof_kept {ts ts' : List token} {s : stmt}
    (h : parse_instruction ts = .ok (s, ts')) : eof_kept ts ts' := by
  simp only [parse_instruction] at h
  split at h
  · simp at h
  next heq1 =>
  split at h
  · simp at h
  next heq2 =>
  simp only [Except.ok.injEq, Prod.mk.injEq] at h
  obtain ⟨-, rfl⟩ := h
  exact eof_kept_trans (expect_eof_kept (by decide) heq1)
    (parse_operands_eof_kept _ heq2)

theorem parse_label_body_eof_kept (ts : List token) {ss : List stmt} {ts' : List token}
    (h : parse_label_body ts = .ok (ss, ts')) : eof_kept ts ts' := by
  match ts with
  | [] =>
    rw [parse_label_body] at h
    simp only [Except.ok.injEq, Prod.mk.injEq] at h
    obtain ⟨-, rfl⟩ := h
    exact eof_kept_refl []
  | t :: rest =>
  rw [parse_label_body] at h
  split at h <;>
    first
    | (simp only [Except.ok.injEq, Prod.mk.injEq] at h
       obtain ⟨-, rfl⟩ := h
       exact eof_kept_refl _)
    | simp at h
    | (split at h
       · simp at h
       next s rest' hp =>
         split at h
         · simp at h
         next ss2 rest'' hrec =>
           simp only [Except.ok.injEq, Prod.mk.injEq] at h
           obtain ⟨-, rfl⟩ := h
           exact eof_kept_trans
             (by first
               | exact parse_define_eof_kept hp
               | exact parse_config_eof_kept hp
               | exact parse_raw_eof_kept hp
               | exact parse_instruction_eof_kept hp)
             (parse_label_body_eof_kept rest' hrec))
  termination_by ts.length
  decreasing_by
    all_goals
      first
      | exact parse_define_length (by assumption)
      | exact parse_config_length (by assumption)
      | exact parse_raw_length (by assumption)
      | exact parse_instruction_length (by assumption)

theorem parse_label_eof_kept {ts ts' : List token} {s : stmt}
    (h : parse_label ts = .ok (s, ts')) : eof_kept ts ts' := by
  simp only [parse_label] at h
  split at h
  · simp at h
  next heq1 =>
  split at h
  · simp at h
  next heq2 =>
  split at h
  · simp at h
  next heq3 =>
  split at h
  · simp at h
  next heq4 =>
  simp only [Except.ok.injEq, Prod.mk.injEq] at h
  obtain ⟨-, rfl⟩ := h
  exact eof_kept_trans (expect_eof_kept (by decide) heq1)
    (eof_kept_trans (expect_eof_kept (by decide) heq2)
      (eof_kept_trans (expect_eof_kept (by decide) heq3)
        (parse_label_body_eof_kept _ heq4)))

theorem parse_proc_body_eof_kept (ts : List token) {ss : List stmt} {ts' : List token}
    (h : parse_proc_body ts = .ok (ss, ts')) : eof_kept ts ts' := by
  match ts with
  | [] => simp [parse_proc_body] at h
  | t :: rest =>
  rw [parse_proc_body] at h
  split at h <;>
    first
    | (simp only [Except.ok.injEq, Prod.mk.injEq] at h
       obtain ⟨-, rfl⟩ := h
       exact eof_kept_refl _)
    | simp at h
    | (split at h
       · simp at h
       next s rest' hp =>
         split at h
         · simp at h
         next ss2 rest'' hrec =>
           simp only [Except.ok.injEq, Prod.mk.injEq] at h
           obtain ⟨-, rfl⟩ := h
           exact eof_kept_trans
             (by first
               | exact parse_define_eof_kept hp
               | exact parse_config_eof_kept hp
               | exact parse_raw_eof_kept hp
               | exact parse_instruction_eof_kept hp
               | exact parse_label_eof_kept hp)
             (parse_proc_body_eof_kept rest' hrec))
  termination_by ts.length
  decreasing_by
    all_goals
      first
      | exact parse_define_length (by assumption)
      | exact parse_config_length (by assumption)
      | exact parse_raw_length (by assumption)
      | exact parse_instruction_length (by assumption)
      | exact parse_label_length (by assumption)

theorem parse_procedure_eof_kept {ts ts' : List token} {s : stmt}
    (h : parse_procedure ts = .ok (s, ts')) : eof_kept ts ts' := by
  simp only [parse_procedure] at h
  split at h
  · simp at h
  next heq1 =>
  split at h
  · simp at h
  next heq2 =>
  split at h
  · simp at h
  next heq3 =>
  split at h
  · simp at h
  next heq4 =>
  split at h
  · simp at h
  next heq5 =>
  split at h
  · simp at h
  · simp only [Except.ok.injEq, Prod.mk.injEq] at h
    obtain ⟨-, rfl⟩ := h
    exact eof_kept_trans (expect_eof_kept (by decide) heq1)
      (eof_kept_trans (expect_eof_kept (by decide) heq2)
        (eof_kept_trans (parse_proc_body_eof_kept _ heq3)
          (eof_kept_trans (expect_eof_kept (by decide) heq4)
            (expect_eof_kept (by decide) heq5))))

theorem parse_primary_statement_eof_kept {ts ts' : List token} {os : Option stmt}
    (h : parse_primary_statement ts = .ok (os, ts')) : eof_kept ts ts' := by
  match ts with
  | [] =>
    simp only [parse_primary_statement, Except.ok.injEq, Prod.mk.injEq] at h
    obtain ⟨-, rfl⟩ := h
    exact eof_kept_refl []
  | t :: rest =>
    rw [parse_primary_statement] at h
    split at h <;>
      first
      | simp at h
      | (split at h
         · simp at h
         next s2 rest' hp =>
           simp only [Except.ok.injEq, Prod.mk.injEq] at h
           obtain ⟨-, rfl⟩ := h
           first
           | exact parse_define_eof_kept hp
           | exact parse_config_eof_kept hp
           | exact parse_sprite_eof_kept hp
           | exact parse_raw_eof_kept hp
           | exact parse_label_eof_kept hp
           | exact parse_procedure_eof_kept hp
           | exact parse_instruction_eof_kept hp)

theorem parse_primary_statement_none {ts ts' : List token}
    (h : parse_primary_statement ts = .ok (none, ts')) : ts = [] := by
  match ts with
  | [] => rfl
  | t :: rest =>
    rw [parse_primary_statement] at h
    split at h <;>
      first
      | simp at h
      | (split at h
         · simp at h
         · simp at h)

theorem make_tree_no_eof (ts : List token) {tree : abstract_tree}
    (h : make_tree ts = .ok tree) : ∀ t ∈ ts, t.type ≠ .eof := by
  rw [make_tree.eq_def] at h
  split at h
  · simp at h
  · next x heq =>
    rw [parse_primary_statement_none heq]
    intro t ht
    simp at ht
  · next s rest heq =>
    split at h
    · simp at h
    next tr hrec =>
      have hlt := parse_primary_statement_some_length heq
      have ih := make_tree_no_eof rest hrec
      intro t ht he
      exact ih t (parse_primary_statement_eof_kept heq t ht he) he
  termination_by ts.length
  decreasing_by assumption

theorem make_tree_nil : make_tree [] = .ok ⟨[]⟩ := by
  rw [make_tree.eq_def]
  rfl

theorem make_tree_cons_eval {ts : List token} {s : stmt} {rest : List token}
    {tr : abstract_tree}
    (h1 : parse_primary_statement ts = .ok (some s, rest))
    (h2 : make_tree rest = .ok tr) :
    make_tree ts = .ok ⟨s :: tr.statements⟩ := by
  rw [make_tree.eq_def]
  split
  · next e heq => rw [h1] at heq; simp at heq
  · next x heq => rw [h1] at heq; simp at heq
  · next s2 rest2 heq =>
    rw [h1] at heq
    simp only [Except.ok.injEq, Prod.mk.injEq, Option.some.injEq] at heq
    obtain ⟨rfl, rfl⟩ := heq
    rw [h2]

theorem parse_label_body_nil : parse_label_body [] = .ok ([], []) := by
  rw [parse_label_body]

theorem parse_label_body_stop {t : token} {rest : List token}
    (h : t.type = .keyword_proc_end ∨ t.type = .dot_label) :
    parse_label_body (t :: rest) = .ok ([], t :: rest) := by
  obtain ⟨ty, d⟩ := t
  simp only at h
  rcases h with rfl | rfl <;> rw [parse_label_body]

theorem parse_proc_body_stop {t : token} {rest : List token}
    (h : t.type = .keyword_proc_end) :
    parse_proc_body (t :: rest) = .ok ([], t :: rest) := by
  obtain ⟨ty, d⟩ := t
  simp only at h
  subst h
  rw [parse_proc_body]

theorem parse_proc_body_nested_error {t : token} {rest : List token}
    (h : t.type = .keyword_proc_start) :
    parse_proc_body (t :: rest) = .error .nested_procedure := by
  obtain ⟨ty, d⟩ := t
  simp only at h
  subst h
  rw [parse_proc_body]

theorem parse_proc_body_label_step {t : token} {rest rest' rest'' : List token}
    {s : stmt} {ss : List stmt}
    (h : t.type = .dot_label)
    (hp : parse_label (t :: rest) = .ok (s, rest'))
    (hrec : parse_proc_body rest' = .ok (ss, rest'')) :
    parse_proc_body (t :: rest) = .ok (s :: ss, rest'') := by
  obtain ⟨ty, d⟩ := t
  simp only at h
  subst h
  rw [parse_proc_body]
  split
  · next heq => simp at heq
  · next heq => simp at heq
  · next heq => simp at heq
  · next heq => simp at heq
  · next heq => simp at heq
  · next heq => simp at heq
  · split
    · next e heq2 => rw [hp] at heq2; simp at heq2
    · next s2 r2 heq2 =>
      rw [hp] at heq2
      simp only [Except.ok.injEq, Prod.mk.injEq] at heq2
      obtain ⟨rfl, rfl⟩ := heq2
      rw [hrec]
  · next x h1 h2 h3 h4 h5 h6 h7 => exact absurd rfl h7

theorem parse_define_not_scoped {ts ts' : List token} {s : stmt}
    (h : parse_define ts = .ok (s, ts')) :
    s.is_label = false ∧ s.is_procedure = false := by
  simp only [parse_define] at h
  split at h
  · simp at h
  split at h
  · simp at h
  split at h
  · simp at h
  simp only [Except.ok.injEq, Prod.mk.injEq] at h
  obtain ⟨rfl, rfl⟩ := h
  exact ⟨rfl, rfl⟩

theorem parse_config_not_scoped {ts ts' : List token} {s : stmt}
    (h : parse_config ts = .ok (s, ts')) :
    s.is_label = false ∧ s.is_procedure = false := by
  simp only [parse_config] at h
  split at h
  · simp at h
  split at h
  · simp at h
  split at h
  · simp at h
  split at h
  · simp at h
  simp only [Except.ok.injEq, Prod.mk.injEq] at h
  obtain ⟨rfl, rfl⟩ := h
  exact ⟨rfl, rfl⟩

theorem parse_raw_not_scoped {ts ts' : List token} {s : stmt}
    (h : parse_raw ts = .ok (s, ts')) :
    s.is_label = false ∧ s.is_procedure = false := by
  simp only [parse_raw] at h
  split at h
  · simp at h
  split at h
  · simp at h
  split at h
  · simp at h
  split at h
  · simp at h
  simp only [Except.ok.injEq, Prod.mk.injEq] at h
  obtain ⟨rfl, rfl⟩ := h
  exact ⟨rfl, rfl⟩

theorem parse_instruction_not_scoped {ts ts' : List token} {s : stmt}
    (h : parse_instruction ts = .ok (s, ts')) :
    s.is_label = false ∧ s.is_procedure = false := by
  simp only [parse_instruction] at h
  split at h
  · simp at h
  split at h
  · simp at h
  simp only [Except.ok.injEq, Prod.mk.injEq] at h
  obtain ⟨rfl, rfl⟩ := h
  exact ⟨rfl, rfl⟩

theorem parse_label_body_not_scoped (ts : List token) {ss : List stmt} {ts' : List token}
    (h : parse_label_body ts = .ok (ss, ts')) :
    ∀ u ∈ ss, u.is_label = false ∧ u.is_procedure = false := by
  match ts with
  | [] =>
    rw [parse_label_body] at h
    simp only [Except.ok.injEq, Prod.mk.injEq] at h
    obtain ⟨rfl, rfl⟩ := h
    intro u hu
    simp at hu
  | t :: rest =>
  rw [parse_label_body] at h
  split at h <;>
    first
    | (simp only [Except.ok.injEq, Prod.mk.injEq] at h
       obtain ⟨rfl, rfl⟩ := h
       intro u hu
       simp at hu)
    | simp at h
    | (split at h
       · simp at h
       next s rest' hp =>
         split at h
         · simp at h
         next ss2 rest'' hrec =>
           simp only [Except.ok.injEq, Prod.mk.injEq] at h
           obtain ⟨rfl, rfl⟩ := h
           intro u hu
           rcases List.mem_cons.mp hu with rfl | hu2
           · first
             | exact parse_define_not_scoped hp
             | exact parse_config_not_scoped hp
             | exact parse_raw_not_scoped hp
             | exact parse_instruction_not_scoped hp
           · exact parse_label_body_not_scoped rest' hrec u hu2)
  termination_by ts.length
  decreasing_by
    all_goals
      first
      | exact parse_define_length (by assumption)
      | exact parse_config_length (by assumption)
      | exact parse_raw_length (by assumption)
      | exact parse_instruction_length (by assumption)

theorem parse_label_shape {ts ts' : List token} {s : stmt}
    (h : parse_label ts = .ok (s, ts')) :
    ∃ name inner, s = .label_statement name inner ∧
      ∀ u ∈ inner, u.is_label = false ∧ u.is_procedure = false := by
  simp only [parse_label] at h
  split at h
  · simp at h
  split at h
  · simp at h
  next heq2 =>
  split at h
  · simp at h
  split at h
  · simp at h
  next heq4 =>
  simp only [Except.ok.injEq, Prod.mk.injEq] at h
  obtain ⟨rfl, rfl⟩ := h
  exact ⟨_, _, rfl, parse_label_body_not_scoped _ heq4⟩

theorem imm8_of_lt {v : Nat} (h : v < 256) : imm_matches_format v fmt_imm8 = true := by
  have h2 : (2 : Nat) ^ 8 = 256 := by norm_num
  simp [imm_matches_format, fmt_imm8, h2]
  omega

theorem lt_of_imm8 {v : Nat} (h : imm_matches_format v fmt_imm8 = true) : v < 256 := by
  have h2 : (2 : Nat) ^ 8 = 256 := by norm_num
  simp [imm_matches_format, fmt_imm8, h2] at h
  omega

theorem sprite_rows_inv (name : String) (acc : List Nat) (us : List token)
    {rows : List Nat} {us' : List token}
    (hacc : ∀ v ∈ acc, v < 256)
    (h : sprite_rows name acc us = .ok (rows, us')) :
    rows.length ≤ MAX_SPRITE_ROWS ∧ acc.length < rows.length ∧ ∀ v ∈ rows, v < 256 := by
  match us with
  | [] => simp [sprite_rows] at h
  | [t] =>
    rw [sprite_rows.eq_2] at h
    split at h
    · split at h
      · simp at h
      next hcnt =>
        split at h
        · simp at h
        next hfmt =>
          simp only [Except.ok.injEq, Prod.mk.injEq] at h
          obtain ⟨rfl, rfl⟩ := h
          simp only [not_not] at hfmt
          refine ⟨?_, ?_, ?_⟩
          · simp only [List.length_append, List.length_cons, List.length_nil]
            omega
          · simp
          · intro v hv
            rcases List.mem_append.mp hv with hv1 | hv2
            · exact hacc v hv1
            · rcases List.mem_singleton.mp hv2 with rfl
              exact lt_of_imm8 hfmt
    · simp at h
  | t :: t2 :: ts2 =>
    rw [sprite_rows.eq_3] at h
    split at h
    · split at h
      · simp at h
      next hcnt =>
        split at h
        · simp at h
        next hfmt =>
          simp only [not_not] at hfmt
          split at h
          · have ih := sprite_rows_inv name (acc ++ [t.to_integer]) ts2 ?hacc2 h
            case hacc2 =>
              intro v hv
              rcases List.mem_append.mp hv with hv1 | hv2
              · exact hacc v hv1
              · rcases List.mem_singleton.mp hv2 with rfl
                exact lt_of_imm8 hfmt
            obtain ⟨ih1, ih2, ih3⟩ := ih
            refine ⟨ih1, ?_, ih3⟩
            simp only [List.length_append, List.length_cons, List.length_nil] at ih2
            omega
          · simp only [Except.ok.injEq, Prod.mk.injEq] at h
            obtain ⟨rfl, rfl⟩ := h
            refine ⟨?_, ?_, ?_⟩
            · simp only [List.length_append, List.length_cons, List.length_nil]
              omega
            · simp
            · intro v hv
              rcases List.mem_append.mp hv with hv1 | hv2
              · exact hacc v hv1
              · rcases List.mem_singleton.mp hv2 with rfl
                exact lt_of_imm8 hfmt
    · simp at h

/-- Token sequence for a comma-separated sprite row list. -/
def row_toks : List Nat → List token
  | [] => []
  | [v] => [⟨.numerical, .num v⟩]
  | v :: rest => ⟨.numerical, .num v⟩ :: ⟨.comma, .str ""⟩ :: row_toks rest

theorem row_toks_cons (v : Nat) (rest : List Nat) (h : rest ≠ []) :
    row_toks (v :: rest) = ⟨.numerical, .num v⟩ :: ⟨.comma, .str ""⟩ :: row_toks rest := by
  cases rest with
  | nil => exact absurd rfl h
  | cons w rest2 => rfl

theorem sprite_rows_complete (name : String) (vs acc : List Nat) (t : token) (sfx : List token)
    (hne : vs ≠ []) (hfit : ∀ v ∈ vs, v < 256)
    (hlen : acc.length + vs.length ≤ MAX_SPRITE_ROWS) (ht : ¬ t.type = .comma) :
    sprite_rows name acc (row_toks vs ++ t :: sfx) = .ok (acc ++ vs, t :: sfx) := by
  match vs with
  | [] => exact absurd rfl hne
  | [v] =>
    rw [row_toks]
    simp only [List.cons_append, List.nil_append]
    rw [sprite_rows.eq_3]
    rw [show (⟨.numerical, .num v⟩ : token).to_integer = v from rfl]
    rw [if_pos rfl]
    rw [if_neg (by simp only [List.length_cons, List.length_nil] at hlen; omega)]
    rw [if_neg (by
      simp only [not_not]
      exact imm8_of_lt (hfit v (List.mem_singleton.mpr rfl)))]
    rw [if_neg ht]
  | v :: v2 :: vs2 =>
    rw [row_toks_cons _ _ (by simp)]
    simp only [List.cons_append]
    rw [sprite_rows.eq_3]
    rw [show (⟨.numerical, .num v⟩ : token).to_integer = v from rfl]
    rw [if_pos rfl]
    rw [if_neg (by simp only [List.length_cons] at hlen; omega)]
    rw [if_neg (by
      simp only [not_not]
      exact imm8_of_lt (hfit v (by simp)))]
    rw [if_pos rfl]
    have ih := sprite_rows_complete name (v2 :: vs2) (acc ++ [v]) t sfx (by simp)
      (fun w hw => hfit w (List.mem_cons_of_mem v hw))
      (by simp only [List.length_append, List.length_cons, List.length_nil] at *; omega) ht
    rw [ih]
    simp

theorem sprite_rows_row_overflow (name : String) (pre : List Nat) (v : Nat)
    (acc : List Nat) (sfx : List token)
    (hfit : ∀ w ∈ pre, w < 256)
    (hlen : acc.length + pre.length < MAX_SPRITE_ROWS) (hv : 256 ≤ v) :
    sprite_rows name acc (row_toks (pre ++ [v]) ++ sfx) = .error .sprite_row_too_large := by
  match pre with
  | [] =>
    simp only [List.nil_append]
    rw [row_toks]
    match sfx with
    | [] =>
      simp only [List.cons_append, List.nil_append]
      rw [sprite_rows.eq_2]
      rw [show (⟨.numerical, .num v⟩ : token).to_integer = v from rfl]
      rw [if_pos rfl]
      rw [if_neg (by simp at hlen ⊢; omega)]
      rw [if_pos (by
        intro hc
        exact absurd (lt_of_imm8 hc) (by omega))]
    | u :: sfx2 =>
      simp only [List.cons_append, List.nil_append]
      rw [sprite_rows.eq_3]
      rw [show (⟨.numerical, .num v⟩ : token).to_integer = v from rfl]
      rw [if_pos rfl]
      rw [if_neg (by simp at hlen ⊢; omega)]
      rw [if_pos (by
        intro hc
        exact absurd (lt_of_imm8 hc) (by omega))]
  | w :: pre2 =>
    rw [List.cons_append]
    rw [row_toks_cons w (pre2 ++ [v]) (by simp)]
    simp only [List.cons_append]
    rw [sprite_rows.eq_3]
    rw [show (⟨.numerical, .num w⟩ : token).to_integer = w from rfl]
    rw [if_pos rfl]
    rw [if_neg (by simp only [List.length_cons] at hlen; omega)]
    rw [if_neg (by
      simp only [not_not]
      exact imm8_of_lt (hfit w (by simp)))]
    rw [if_pos rfl]
    have ih := sprite_rows_row_overflow name pre2 v (acc ++ [w]) sfx
      (fun u hu => hfit u (List.mem_cons_of_mem w hu))
      (by simp only [List.length_append, List.length_cons, List.length_nil] at *; omega) hv
    rw [ih]

theorem sprite_rows_count_overflow (name : String) (vs acc : List Nat) (sfx : List token)
    (hfit : ∀ v ∈ vs, v < 256) (hne : vs ≠ [])
    (hacc : acc.length ≤ MAX_SPRITE_ROWS)
    (hlen : MAX_SPRITE_ROWS < acc.length + vs.length) :
    sprite_rows name acc (row_toks vs ++ sfx) =
      .error (.sprite_too_many_rows name MAX_SPRITE_ROWS) := by
  match vs with
  | [] => exact absurd rfl hne
  | [v] =>
    have hacc2 : acc.length = MAX_SPRITE_ROWS := by
      simp only [List.length_cons, List.length_nil] at hlen
      omega
    rw [row_toks]
    match sfx with
    | [] =>
      simp only [List.cons_append, List.nil_append]
      rw [sprite_rows.eq_2]
      rw [if_pos rfl]
      rw [if_pos (by omega)]
      rw [hacc2]
    | u :: sfx2 =>
      simp only [List.cons_append, List.nil_append]
      rw [sprite_rows.eq_3]
      rw [if_pos rfl]
      rw [if_pos (by omega)]
      rw [hacc2]
  | v :: v2 :: vs2 =>
    rw [row_toks_cons _ _ (by simp)]
    simp only [List.cons_append]
    rw [sprite_rows.eq_3]
    rw [show (⟨.numerical, .num v⟩ : token).to_integer = v from rfl]
    rw [if_pos rfl]
    by_cases hc : acc.length ≥ MAX_SPRITE_ROWS
    · rw [if_pos hc]
      have : acc.length = MAX_SPRITE_ROWS := by omega
      rw [this]
    · rw [if_neg hc]
      rw [if_neg (by
        simp only [not_not]
        exact imm8_of_lt (hfit v (by simp)))]
      rw [if_pos rfl]
      have ih := sprite_rows_count_overflow name (v2 :: vs2) (acc ++ [v]) sfx
        (fun w hw => hfit w (List.mem_cons_of_mem v hw)) (by simp)
        (by simp only [List.length_append, List.length_cons, List.length_nil]; omega)
        (by simp only [List.length_append, List.length_cons, List.length_nil] at *; omega)
      rw [ih]

theorem parse_sprite_inv {ts ts' : List token} {s : stmt}
    (h : parse_sprite ts = .ok (s, ts')) :
    ∃ name rows, s = .sprite_statement name rows ∧ 1 ≤ rows.length ∧
      rows.length ≤ MAX_SPRITE_ROWS ∧ ∀ v ∈ rows, v < 256 := by
  simp only [parse_sprite] at h
  split at h
  · simp at h
  split at h
  · simp at h
  split at h
  · simp at h
  split at h
  · simp at h
  next rows ts2 heq4 =>
  split at h
  · simp at h
  simp only [Except.ok.injEq, Prod.mk.injEq] at h
  obtain ⟨rfl, rfl⟩ := h
  have hi := sprite_rows_inv _ [] _ (by intro v hv; simp at hv) heq4
  exact ⟨_, _, rfl, by simpa using hi.2.1, hi.1, hi.2.2⟩

/-- Token sequence of a full `sprite name [ v, v, ... ]` statement. -/
def sprite_toks (name : String) (vs : List Nat) : List token :=
  ⟨.keyword_sprite, .str ""⟩ :: ⟨.identifier, .str name⟩ :: ⟨.bracket_open, .str ""⟩ ::
    (row_toks vs ++ [⟨.bracket_close, .str ""⟩])

theorem parse_sprite_complete (name : String) (vs : List Nat) (rest : List token)
    (hne : vs ≠ []) (hfit : ∀ v ∈ vs, v < 256) (hlen : vs.length ≤ MAX_SPRITE_ROWS) :
    parse_sprite (sprite_toks name vs ++ rest) =
      .ok (.sprite_statement ⟨.identifier, .str name⟩ vs, rest) := by
  have hrows : sprite_rows name []
      (row_toks vs ++ ⟨.bracket_close, .str ""⟩ :: rest) =
      .ok (vs, ⟨.bracket_close, .str ""⟩ :: rest) := by
    simpa using sprite_rows_complete name vs [] ⟨.bracket_close, .str ""⟩ rest hne hfit
      (by simpa using hlen) (by simp)
  simp only [sprite_toks, List.cons_append, List.append_assoc, List.singleton_append]
  simp [parse_sprite, expect, token.to_string, hrows]

theorem parse_sprite_row_overflow_error (name : String) (pre : List Nat) (v : Nat)
    (sfx : List token)
    (hfit : ∀ w ∈ pre, w < 256) (hlen : pre.length < MAX_SPRITE_ROWS) (hv : 256 ≤ v) :
    parse_sprite (⟨.keyword_sprite, .str ""⟩ :: ⟨.identifier, .str name⟩ ::
        ⟨.bracket_open, .str ""⟩ :: (row_toks (pre ++ [v]) ++ sfx)) =
      .error .sprite_row_too_large := by
  have hrows := sprite_rows_row_overflow name pre v [] sfx hfit (by simpa using hlen) hv
  simp [parse_sprite, expect, token.to_string, hrows]

theorem parse_sprite_count_overflow_error (name : String) (vs : List Nat) (sfx : List token)
    (hfit : ∀ v ∈ vs, v < 256) (hne : vs ≠ []) (hlen : MAX_SPRITE_ROWS < vs.length) :
    parse_sprite (⟨.keyword_sprite, .str ""⟩ :: ⟨.identifier, .str name⟩ ::
        ⟨.bracket_open, .str ""⟩ :: (row_toks vs ++ sfx)) =
      .error (.sprite_too_many_rows name MAX_SPRITE_ROWS) := by
  have hrows := sprite_rows_count_overflow name vs [] sfx hfit hne (by simp)
    (by simpa using hlen)
  simp [parse_sprite, expect, token.to_string, hrows]

/-- C5: when parsing `sprite name [ n, n, ... ]`, a sprite whose rows all
fit the 8-bit immediate format and whose row count is at most
`MAX_SPRITE_ROWS` parses successfully; a parsed sprite only ever carries
rows that fit 8 bits, at most the maximum; a row value that does not fit
the 8-bit format raises the fatal row-value error; and supplying more rows
than the maximum raises the fatal row-count error. -/
theorem c5_sprite_row_checks :
    (∀ ts ts' s, parse_sprite ts = .ok (s, ts') →
      ∃ name rows, s = .sprite_statement name rows ∧
        (∀ v ∈ rows, imm_matches_format v fmt_imm8 = true) ∧
        rows.length ≤ MAX_SPRITE_ROWS) ∧
    (∀ name vs rest, vs ≠ [] →
      (∀ v ∈ vs, imm_matches_format v fmt_imm8 = true) →
      vs.length ≤ MAX_SPRITE_ROWS →
      parse_sprite (sprite_toks name vs ++ rest) =
        .ok (.sprite_statement ⟨.identifier, .str name⟩ vs, rest)) ∧
    (∀ name pre v sfx, (∀ w ∈ pre, imm_matches_format w fmt_imm8 = true) →
      pre.length < MAX_SPRITE_ROWS →
      imm_matches_format v fmt_imm8 = false →
      parse_sprite (⟨.keyword_sprite, .str ""⟩ :: ⟨.identifier, .str name⟩ ::
          ⟨.bracket_open, .str ""⟩ :: (row_toks (pre ++ [v]) ++ sfx)) =
        .error .sprite_row_too_large) ∧
    (∀ name vs sfx, (∀ v ∈ vs, imm_matches_format v fmt_imm8 = true) →
      vs ≠ [] → MAX_SPRITE_ROWS < vs.length →
      parse_sprite (⟨.keyword_sprite, .str ""⟩ :: ⟨.identifier, .str name⟩ ::
          ⟨.bracket_open, .str ""⟩ :: (row_toks vs ++ sfx)) =
        .error (.sprite_too_many_rows name MAX_SPRITE_ROWS)) := by
  refine ⟨?_, ?_, ?_, ?_⟩
  · intro ts ts' s h
    obtain ⟨name, rows, rfl, h1, h2, h3⟩ := parse_sprite_inv h
    exact ⟨name, rows, rfl, fun v hv => imm8_of_lt (h3 v hv), h2⟩
  · intro name vs rest hne hfit hlen
    exact parse_sprite_complete name vs rest hne (fun v hv => lt_of_imm8 (hfit v hv)) hlen
  · intro name pre v sfx hfit hlen hv
    refine parse_sprite_row_overflow_error name pre v sfx
      (fun w hw => lt_of_imm8 (hfit w hw)) hlen ?_
    by_contra hc
    rw [imm8_of_lt (by omega)] at hv
    simp at hv
  · intro name vs sfx hfit hne hlen
    exact parse_sprite_count_overflow_error name vs sfx
      (fun v hv => lt_of_imm8 (hfit v hv)) hne hlen

theorem c5_witness :
    parse_sprite (sprite_toks "s" [1, 2, 3] ++ []) =
      .ok (.sprite_statement ⟨.identifier, .str "s"⟩ [1, 2, 3], []) ∧
    parse_sprite (⟨.keyword_sprite, .str ""⟩ :: ⟨.identifier, .str "s"⟩ ::
        ⟨.bracket_open, .str ""⟩ :: (row_toks ([1] ++ [300]) ++ [⟨.bracket_close, .str ""⟩])) =
      .error .sprite_row_too_large ∧
    parse_sprite (⟨.keyword_sprite, .str ""⟩ :: ⟨.identifier, .str "s"⟩ ::
        ⟨.bracket_open, .str ""⟩ ::
        (row_toks (List.replicate 16 1) ++ [⟨.bracket_close, .str ""⟩])) =
      .error (.sprite_too_many_rows "s" MAX_SPRITE_ROWS) :=
  ⟨c5_sprite_row_checks.2.1 "s" [1, 2, 3] [] (by simp) (by decide) (by decide),
   c5_sprite_row_checks.2.2.1 "s" [1] 300 [⟨.bracket_close, .str ""⟩]
     (by decide) (by decide) (by decide),
   c5_sprite_row_checks.2.2.2 "s" (List.replicate 16 1) [⟨.bracket_close, .str ""⟩]
     (by decide) (by decide) (by decide)⟩

/-- C10: every successfully parsed sprite statement carries between 1 and
`MAX_SPRITE_ROWS` rows inclusive, and the empty row list `sprite s [ ]` is
rejected with an `UnexpectedToken` parse error at the closing bracket. -/
theorem c10_sprite_nonempty :
    (∀ ts ts' s, parse_sprite ts = .ok (s, ts') →
      ∃ name rows, s = .sprite_statement name rows ∧
        1 ≤ rows.length ∧ rows.length ≤ MAX_SPRITE_ROWS) ∧
    parse_sprite [⟨.keyword_sprite, .str ""⟩, ⟨.identifier, .str "s"⟩,
        ⟨.bracket_open, .str ""⟩, ⟨.bracket_close, .str ""⟩] =
      .error (.unexpected ⟨.bracket_close, .str ""⟩) := by
  constructor
  · intro ts ts' s h
    obtain ⟨name, rows, rfl, h1, h2, h3⟩ := parse_sprite_inv h
    exact ⟨name, rows, rfl, h1, h2⟩
  · rfl

theorem c10_witness :
    ∃ name rows, (stmt.sprite_statement ⟨.identifier, .str "s"⟩ [1]) = .sprite_statement name rows ∧
      1 ≤ rows.length ∧ rows.length ≤ MAX_SPRITE_ROWS :=
  c10_sprite_nonempty.1 (sprite_toks "s" [1]) []
    (.sprite_statement ⟨.identifier, .str "s"⟩ [1]) rfl

/-- C6: operand parsing dispatches on the leading token: a register token
yields a register operand; an `@` / `$` / `#` sigil must be followed by an
identifier, yielding a label / procedure / sprite operand respectively,
and a non-identifier after the sigil is an `UnexpectedToken` parse error;
`[` followed by a numeric or identifier token and `]` yields an indirect
operand; a bare numeric or identifier token yields an immediate operand. -/
theorem c6_operand_dispatch :
    (∀ (t : token) ts, t.type = .register_name →
      parse_operand (t :: ts) = .ok (.reg t, ts)) ∧
    (∀ (t u : token) ts, t.type = .at_label → u.type = .identifier →
      parse_operand (t :: u :: ts) = .ok (.lbl u, ts)) ∧
    (∀ (t u : token) ts, t.type = .dollar_proc → u.type = .identifier →
      parse_operand (t :: u :: ts) = .ok (.prc u, ts)) ∧
    (∀ (t u : token) ts, t.type = .hash_sprite → u.type = .identifier →
      parse_operand (t :: u :: ts) = .ok (.spr u, ts)) ∧
    (∀ (t u : token) ts,
      (t.type = .at_label ∨ t.type = .dollar_proc ∨ t.type = .hash_sprite) →
      u.type ≠ .identifier →
      parse_operand (t :: u :: ts) = .error (.unexpected u)) ∧
    (∀ (t u v : token) ts, t.type = .bracket_open →
      (u.type = .numerical ∨ u.type = .identifier) → v.type = .bracket_close →
      parse_operand (t :: u :: v :: ts) = .ok (.indirect u, ts)) ∧
    (∀ (t : token) ts, (t.type = .numerical ∨ t.type = .identifier) →
      parse_operand (t :: ts) = .ok (.imm t, ts)) := by
  refine ⟨?_, ?_, ?_, ?_, ?_, ?_, ?_⟩
  · intro t ts ht
    obtain ⟨ty, d⟩ := t
    simp only at ht
    subst ht
    rfl
  · intro t u ts ht hu
    obtain ⟨ty, d⟩ := t
    obtain ⟨uy, ud⟩ := u
    simp only at ht hu
    subst ht
    subst hu
    rfl
  · intro t u ts ht hu
    obtain ⟨ty, d⟩ := t
    obtain ⟨uy, ud⟩ := u
    simp only at ht hu
    subst ht
    subst hu
    rfl
  · intro t u ts ht hu
    obtain ⟨ty, d⟩ := t
    obtain ⟨uy, ud⟩ := u
    simp only at ht hu
    subst ht
    subst hu
    rfl
  · intro t u ts ht hu
    obtain ⟨ty, d⟩ := t
    obtain ⟨uy, ud⟩ := u
    simp only at ht hu
    rcases ht with rfl | rfl | rfl <;>
      simp [parse_operand, expect, hu]
  · intro t u v ts ht hu hv
    obtain ⟨ty, d⟩ := t
    obtain ⟨uy, ud⟩ := u
    obtain ⟨vy, vd⟩ := v
    simp only at ht hu hv
    subst ht
    subst hv
    rcases hu with rfl | rfl <;> rfl
  · intro t ts ht
    obtain ⟨ty, d⟩ := t
    simp only at ht
    rcases ht with rfl | rfl <;> rfl

theorem c6_witness :
    parse_operand [⟨.register_name, .str "v0"⟩] =
      .ok (.reg ⟨.register_name, .str "v0"⟩, []) ∧
    parse_operand [⟨.at_label, .str ""⟩, ⟨.identifier, .str "l"⟩] =
      .ok (.lbl ⟨.identifier, .str "l"⟩, []) ∧
    parse_operand [⟨.dollar_proc, .str ""⟩, ⟨.identifier, .str "p"⟩] =
      .ok (.prc ⟨.identifier, .str "p"⟩, []) ∧
    parse_operand [⟨.hash_sprite, .str ""⟩, ⟨.identifier, .str "q"⟩] =
      .ok (.spr ⟨.identifier, .str "q"⟩, []) ∧
    parse_operand [⟨.at_label, .str ""⟩, ⟨.numerical, .num 3⟩] =
      .error (.unexpected ⟨.numerical, .num 3⟩) ∧
    parse_operand [⟨.bracket_open, .str ""⟩, ⟨.numerical, .num 1⟩, ⟨.bracket_close, .str ""⟩] =
      .ok (.indirect ⟨.numerical, .num 1⟩, []) ∧
    parse_operand [⟨.numerical, .num 7⟩] = .ok (.imm ⟨.numerical, .num 7⟩, []) :=
  ⟨c6_operand_dispatch.1 _ [] rfl,
   c6_operand_dispatch.2.1 _ _ [] rfl rfl,
   c6_operand_dispatch.2.2.1 _ _ [] rfl rfl,
   c6_operand_dispatch.2.2.2.1 _ _ [] rfl rfl,
   c6_operand_dispatch.2.2.2.2.1 _ _ [] (Or.inl rfl) (by decide),
   c6_operand_dispatch.2.2.2.2.2.1 _ _ _ [] rfl (Or.inl rfl) rfl,
   c6_operand_dispatch.2.2.2.2.2.2 _ [] (Or.inl rfl)⟩

theorem parse_procedure_eval {da db d0 d1 : token_data} {ts1 rest : List token}
    {inner : List stmt}
    (hbody : parse_proc_body ts1 =
      .ok (inner, ⟨.keyword_proc_end, d1⟩ :: ⟨.identifier, db⟩ :: rest)) :
    parse_procedure (⟨.keyword_proc_start, d0⟩ :: ⟨.identifier, da⟩ :: ts1) =
      if db = da then
        .ok (.procedure_statement ⟨.identifier, da⟩ ⟨.identifier, db⟩ inner, rest)
      else
        .error (.unmatching_procedure_names ⟨.identifier, da⟩ ⟨.identifier, db⟩) := by
  simp only [parse_procedure, expect, List.mem_cons, List.mem_singleton]
  norm_num
  rw [hbody]
  simp

/-- C3: a procedure `proc A <body> endp B` parses successfully exactly when
the closing identifier's payload equals the opening one's; when they
differ, parsing fails with `UnmatchingProcedureNames` carrying both name
tokens, and no procedure statement is produced. -/
theorem c3_procedure_name_matching :
    ∀ (da db d0 d1 : token_data) (ts1 rest : List token) (inner : List stmt),
      parse_proc_body ts1 =
        .ok (inner, ⟨.keyword_proc_end, d1⟩ :: ⟨.identifier, db⟩ :: rest) →
      (da = db →
        parse_procedure (⟨.keyword_proc_start, d0⟩ :: ⟨.identifier, da⟩ :: ts1) =
          .ok (.procedure_statement ⟨.identifier, da⟩ ⟨.identifier, db⟩ inner, rest)) ∧
      (da ≠ db →
        parse_procedure (⟨.keyword_proc_start, d0⟩ :: ⟨.identifier, da⟩ :: ts1) =
          .error (.unmatching_procedure_names ⟨.identifier, da⟩ ⟨.identifier, db⟩)) := by
  intro da db d0 d1 ts1 rest inner hbody
  constructor
  · intro h
    subst h
    rw [parse_procedure_eval hbody]
    rw [if_pos rfl]
  · intro h
    rw [parse_procedure_eval hbody]
    rw [if_neg (fun hc => h hc.symm)]

theorem c3_witness :
    parse_procedure [⟨.keyword_proc_start, .str ""⟩, ⟨.identifier, .str "foo"⟩,
        ⟨.keyword_proc_end, .str ""⟩, ⟨.identifier, .str "foo"⟩] =
      .ok (.procedure_statement ⟨.identifier, .str "foo"⟩ ⟨.identifier, .str "foo"⟩ [], []) ∧
    parse_procedure [⟨.keyword_proc_start, .str ""⟩, ⟨.identifier, .str "foo"⟩,
        ⟨.keyword_proc_end, .str ""⟩, ⟨.identifier, .str "bar"⟩] =
      .error (.unmatching_procedure_names ⟨.identifier, .str "foo"⟩ ⟨.identifier, .str "bar"⟩) :=
  ⟨(c3_procedure_name_matching (.str "foo") (.str "foo") (.str "") (.str "")
      [⟨.keyword_proc_end, .str ""⟩, ⟨.identifier, .str "foo"⟩] [] []
      (parse_proc_body_stop rfl)).1 rfl,
   (c3_procedure_name_matching (.str "foo") (.str "bar") (.str "") (.str "")
      [⟨.keyword_proc_end, .str ""⟩, ⟨.identifier, .str "bar"⟩] [] []
      (parse_proc_body_stop rfl)).2 (by decide)⟩

/-- C4: inside a procedure body a `proc` start token is the fatal
nested-procedure error, while a `.name:` label inside a procedure body is
parsed as a nested label statement without error. -/
theorem c4_procedure_nesting :
    (∀ (d0 d1 d2 : token_data) (rest : List token),
      parse_procedure (⟨.keyword_proc_start, d0⟩ :: ⟨.identifier, d1⟩ ::
          ⟨.keyword_proc_start, d2⟩ :: rest) =
        .error .nested_procedure) ∧
    (∀ (d0 dl : token_data) (name lab : String) (rest : List token),
      parse_procedure (⟨.keyword_proc_start, d0⟩ :: ⟨.identifier, .str name⟩ ::
          ⟨.dot_label, dl⟩ :: ⟨.identifier, .str lab⟩ :: ⟨.colon, dl⟩ ::
          ⟨.keyword_proc_end, dl⟩ :: ⟨.identifier, .str name⟩ :: rest) =
        .ok (.procedure_statement ⟨.identifier, .str name⟩ ⟨.identifier, .str name⟩
              [.label_statement ⟨.identifier, .str lab⟩ []], rest)) := by
  constructor
  · intro d0 d1 d2 rest
    have hb := @parse_proc_body_nested_error ⟨.keyword_proc_start, d2⟩ rest rfl
    simp [parse_procedure, expect, hb]
  · intro d0 dl name lab rest
    have hlb : parse_label_body
        (⟨.keyword_proc_end, dl⟩ :: ⟨.identifier, .str name⟩ :: rest) =
        .ok ([], ⟨.keyword_proc_end, dl⟩ :: ⟨.identifier, .str name⟩ :: rest) :=
      parse_label_body_stop (Or.inl rfl)
    have hl : parse_label (⟨.dot_label, dl⟩ :: ⟨.identifier, .str lab⟩ :: ⟨.colon, dl⟩ ::
        ⟨.keyword_proc_end, dl⟩ :: ⟨.identifier, .str name⟩ :: rest) =
        .ok (.label_statement ⟨.identifier, .str lab⟩ [],
             ⟨.keyword_proc_end, dl⟩ :: ⟨.identifier, .str name⟩ :: rest) := by
      simp [parse_label, expect, hlb]
    have hpb2 : parse_proc_body
        (⟨.keyword_proc_end, dl⟩ :: ⟨.identifier, .str name⟩ :: rest) =
        .ok ([], ⟨.keyword_proc_end, dl⟩ :: ⟨.identifier, .str name⟩ :: rest) :=
      parse_proc_body_stop rfl
    have hpb := parse_proc_body_label_step rfl hl hpb2
    rw [parse_procedure_eval hpb]
    rw [if_pos rfl]

theorem c4_witness :
    parse_procedure [⟨.keyword_proc_start, .str ""⟩, ⟨.identifier, .str "p"⟩,
        ⟨.keyword_proc_start, .str ""⟩] = .error .nested_procedure ∧
    parse_procedure [⟨.keyword_proc_start, .str ""⟩, ⟨.identifier, .str "p"⟩,
        ⟨.dot_label, .str ""⟩, ⟨.identifier, .str "l"⟩, ⟨.colon, .str ""⟩,
        ⟨.keyword_proc_end, .str ""⟩, ⟨.identifier, .str "p"⟩] =
      .ok (.procedure_statement ⟨.identifier, .str "p"⟩ ⟨.identifier, .str "p"⟩
            [.label_statement ⟨.identifier, .str "l"⟩ []], []) :=
  ⟨c4_procedure_nesting.1 (.str "") (.str "p") (.str "") [],
   c4_procedure_nesting.2 (.str "") (.str "") "p" "l" []⟩

/-- C2 (amended): a label statement's nested list never contains another
label (nor a procedure): the nested-statement loop of `parse_label` stops,
consuming nothing, at a `.name:` label token (and at a procedure end), so
a label following a label is parsed as a sibling, not as a nested
statement. -/
theorem c2_labels_never_nest :
    (∀ ts ts' s, parse_label ts = .ok (s, ts') →
      ∃ name inner, s = .label_statement name inner ∧
        ∀ u ∈ inner, u.is_label = false ∧ u.is_procedure = false) ∧
    (∀ (t : token) rest, t.type = .dot_label ∨ t.type = .keyword_proc_end →
      parse_label_body (t :: rest) = .ok ([], t :: rest)) := by
  constructor
  · intro ts ts' s h
    exact parse_label_shape h
  · intro t rest ht
    exact parse_label_body_stop ht.symm

theorem c2_witness :
    (∃ name inner,
      (stmt.label_statement ⟨.identifier, .str "a"⟩ []) = .label_statement name inner ∧
        ∀ u ∈ inner, u.is_label = false ∧ u.is_procedure = false) ∧
    parse_label_body [⟨.dot_label, .str ""⟩] = .ok ([], [⟨.dot_label, .str ""⟩]) :=
  ⟨c2_labels_never_nest.1 [⟨.dot_label, .str ""⟩, ⟨.identifier, .str "a"⟩, ⟨.colon, .str ""⟩]
      [] (.label_statement ⟨.identifier, .str "a"⟩ [])
      (by simp [parse_label, expect, parse_label_body_nil]),
   c2_labels_never_nest.2 ⟨.dot_label, .str ""⟩ [] (Or.inl rfl)⟩

theorem c2_counterexample :
    make_tree [⟨.dot_label, .str ""⟩, ⟨.identifier, .str "a"⟩, ⟨.colon, .str ""⟩,
               ⟨.dot_label, .str ""⟩, ⟨.identifier, .str "b"⟩, ⟨.colon, .str ""⟩] =
      .ok ⟨[.label_statement ⟨.identifier, .str "a"⟩ [],
            .label_statement ⟨.identifier, .str "b"⟩ []]⟩ := by
  have h_lab_b : parse_label [⟨.dot_label, .str ""⟩, ⟨.identifier, .str "b"⟩, ⟨.colon, .str ""⟩] =
      .ok (.label_statement ⟨.identifier, .str "b"⟩ [], []) := by
    simp [parse_label, expect, parse_label_body_nil]
  have h_pp_b : parse_primary_statement
      [⟨.dot_label, .str ""⟩, ⟨.identifier, .str "b"⟩, ⟨.colon, .str ""⟩] =
      .ok (some (.label_statement ⟨.identifier, .str "b"⟩ []), []) := by
    simp [parse_primary_statement, h_lab_b]
  have h_mt_b := make_tree_cons_eval h_pp_b make_tree_nil
  have h_lb_a : parse_label_body [⟨.dot_label, .str ""⟩, ⟨.identifier, .str "b"⟩, ⟨.colon, .str ""⟩] =
      .ok ([], [⟨.dot_label, .str ""⟩, ⟨.identifier, .str "b"⟩, ⟨.colon, .str ""⟩]) :=
    parse_label_body_stop (Or.inr rfl)
  have h_lab_a : parse_label [⟨.dot_label, .str ""⟩, ⟨.identifier, .str "a"⟩, ⟨.colon, .str ""⟩,
      ⟨.dot_label, .str ""⟩, ⟨.identifier, .str "b"⟩, ⟨.colon, .str ""⟩] =
      .ok (.label_statement ⟨.identifier, .str "a"⟩ [],
           [⟨.dot_label, .str ""⟩, ⟨.identifier, .str "b"⟩, ⟨.colon, .str ""⟩]) := by
    simp [parse_label, expect, h_lb_a]
  have h_pp_a : parse_primary_statement [⟨.dot_label, .str ""⟩, ⟨.identifier, .str "a"⟩,
      ⟨.colon, .str ""⟩, ⟨.dot_label, .str ""⟩, ⟨.identifier, .str "b"⟩, ⟨.colon, .str ""⟩] =
      .ok (some (.label_statement ⟨.identifier, .str "a"⟩ []),
           [⟨.dot_label, .str ""⟩, ⟨.identifier, .str "b"⟩, ⟨.colon, .str ""⟩]) := by
    simp [parse_primary_statement, h_lab_a]
  exact make_tree_cons_eval h_pp_a h_mt_b

/-- C9: `make_tree` treats exhaustion of the token vector as the end of
parsing, returning the completed tree; an explicit `eof` token is not
accepted as a statement starter and raises `UnexpectedToken`; consequently
`make_tree` succeeds only on token sequences containing no `eof` token —
the sequences the entry point hands over after stripping the lexer's
terminating `eof`. -/
theorem c9_eof_handling :
    make_tree [] = .ok ⟨[]⟩ ∧
    (∀ (t : token) ts, t.type = .eof →
      parse_primary_statement (t :: ts) = .error (.unexpected t)) ∧
    (∀ ts tree, make_tree ts = .ok tree → ∀ t ∈ ts, t.type ≠ .eof) := by
  refine ⟨make_tree_nil, ?_, ?_⟩
  · intro t ts ht
    obtain ⟨ty, d⟩ := t
    simp only at ht
    subst ht
    rfl
  · intro ts tree h
    exact make_tree_no_eof ts h

theorem c9_witness :
    parse_primary_statement [⟨.eof, .str ""⟩] = .error (.unexpected ⟨.eof, .str ""⟩) ∧
    (∀ t ∈ [(⟨.dot_label, .str ""⟩ : token), ⟨.identifier, .str "a"⟩, ⟨.colon, .str ""⟩],
      token.type t ≠ token_type.eof) :=
  ⟨c9_eof_handling.2.1 ⟨.eof, .str ""⟩ [] rfl,
   c9_eof_handling.2.2 [⟨.dot_label, .str ""⟩, ⟨.identifier, .str "a"⟩, ⟨.colon, .str ""⟩]
     ⟨[.label_statement ⟨.identifier, .str "a"⟩ []]⟩
     (make_tree_cons_eval
       (by simp [parse_primary_statement, parse_label, expect, parse_label_body_nil])
       make_tree_nil)⟩

/-- C1: `abstract_tree::generate` first runs the symbol-resolution pass
(`sanitize`) — a sanitize failure is the result of `generate` — and then
hands the encoder the top-level statements stably sorted by descending
priority: the sorted sequence is ordered by the priority-descending
relation, and any two statements with equal priority keep their relative
source order in it. -/
theorem c1_generate_order (t : abstract_tree) :
    (∀ e, t.sanitize = .error e → t.generate = .error e) ∧
    (t.sanitize = .ok () → t.generate = gen_words (sortStmts t.statements)) ∧
    List.Sorted stmt_ge (sortStmts t.statements) ∧
    (∀ a b, a.priority = b.priority → List.Sublist [a, b] t.statements →
      List.Sublist [a, b] (sortStmts t.statements)) := by
  refine ⟨?_, ?_, ?_, ?_⟩
  · intro e he
    simp [abstract_tree.generate, he]
  · intro h
    simp [abstract_tree.generate, h]
  · exact List.sorted_insertionSort stmt_ge _
  · intro a b hpr hsub
    exact List.pair_sublist_insertionSort (le_of_eq hpr.symm) hsub

theorem c1_witness :
    (abstract_tree.mk []).generate = gen_words (sortStmts []) ∧
    List.Sublist
      [stmt.define_statement ⟨.identifier, .str "x"⟩ ⟨.numerical, .num 1⟩,
       stmt.define_statement ⟨.identifier, .str "y"⟩ ⟨.numerical, .num 2⟩]
      (sortStmts [stmt.define_statement ⟨.identifier, .str "x"⟩ ⟨.numerical, .num 1⟩,
                  stmt.define_statement ⟨.identifier, .str "y"⟩ ⟨.numerical, .num 2⟩]) :=
  ⟨(c1_generate_order ⟨[]⟩).2.1 rfl,
   (c1_generate_order ⟨[stmt.define_statement ⟨.identifier, .str "x"⟩ ⟨.numerical, .num 1⟩,
       stmt.define_statement ⟨.identifier, .str "y"⟩ ⟨.numerical, .num 2⟩]⟩).2.2.2 _ _ rfl
     (List.Sublist.refl _)⟩

/-- C7 (amended): generation factors through the priority-stable-sorted
statement sequence, so moving a declaration to another position in its
scope preserves the final machine-word sequence whenever the move leaves
the stably-sorted sequence unchanged — in particular when it only crosses
statements of different priority.  Reorderings that permute equal-priority
emitting statements (two sprites, say) can change the output. -/
theorem c7_sort_equal_generate_equal (t1 t2 : abstract_tree)
    (h1 : t1.sanitize = .ok ()) (h2 : t2.sanitize = .ok ())
    (hsort : sortStmts t1.statements = sortStmts t2.statements) :
    t1.generate = t2.generate := by
  simp [abstract_tree.generate, h1, h2, hsort]

theorem c7_witness :
    (abstract_tree.mk [stmt.define_statement ⟨.identifier, .str "x"⟩ ⟨.numerical, .num 5⟩,
        stmt.sprite_statement ⟨.identifier, .str "s"⟩ [1]]).generate =
    (abstract_tree.mk [stmt.sprite_statement ⟨.identifier, .str "s"⟩ [1],
        stmt.define_statement ⟨.identifier, .str "x"⟩ ⟨.numerical, .num 5⟩]).generate :=
  c7_sort_equal_generate_equal _ _
    (by simp [abstract_tree.sanitize, stmt.decls, stmt.refs, stmt.default_uses,
              first_dup, token.to_string])
    (by simp [abstract_tree.sanitize, stmt.decls, stmt.refs, stmt.default_uses,
              first_dup, token.to_string])
    (by simp [sortStmts, List.insertionSort, List.orderedInsert, stmt_ge, stmt.priority])

theorem c7_counterexample :
    compile (sprite_toks "a" [1] ++ sprite_toks "b" [2]) = .ok [1, 2] ∧
    compile (sprite_toks "b" [2] ++ sprite_toks "a" [1]) = .ok [2, 1] ∧
    compile (sprite_toks "a" [1] ++ sprite_toks "b" [2]) ≠
      compile (sprite_toks "b" [2] ++ sprite_toks "a" [1]) := by
  have hp_a : ∀ rest, parse_primary_statement (sprite_toks "a" [1] ++ rest) =
      .ok (some (.sprite_statement ⟨.identifier, .str "a"⟩ [1]), rest) := fun rest => rfl
  have hp_b : ∀ rest, parse_primary_statement (sprite_toks "b" [2] ++ rest) =
      .ok (some (.sprite_statement ⟨.identifier, .str "b"⟩ [2]), rest) := fun rest => rfl
  have hm1 : make_tree (sprite_toks "a" [1] ++ sprite_toks "b" [2]) =
      .ok ⟨[.sprite_statement ⟨.identifier, .str "a"⟩ [1],
            .sprite_statement ⟨.identifier, .str "b"⟩ [2]]⟩ :=
    make_tree_cons_eval (hp_a _)
      (make_tree_cons_eval (by simpa using hp_b []) make_tree_nil)
  have hm2 : make_tree (sprite_toks "b" [2] ++ sprite_toks "a" [1]) =
      .ok ⟨[.sprite_statement ⟨.identifier, .str "b"⟩ [2],
            .sprite_statement ⟨.identifier, .str "a"⟩ [1]]⟩ :=
    make_tree_cons_eval (hp_b _)
      (make_tree_cons_eval (by simpa using hp_a []) make_tree_nil)
  have e1 : (abstract_tree.mk [stmt.sprite_statement ⟨.identifier, .str "a"⟩ [1],
      stmt.sprite_statement ⟨.identifier, .str "b"⟩ [2]]).generate = .ok [1, 2] := by
    simp [abstract_tree.generate, abstract_tree.sanitize, stmt.decls, stmt.refs,
          stmt.default_uses, first_dup, sortStmts, List.insertionSort, List.orderedInsert,
          stmt_ge, stmt.priority, gen_words, build_env, value_binds, layout, sprites_of,
          sprite_addrs, encode_items, token.to_string]
  have e2 : (abstract_tree.mk [stmt.sprite_statement ⟨.identifier, .str "b"⟩ [2],
      stmt.sprite_statement ⟨.identifier, .str "a"⟩ [1]]).generate = .ok [2, 1] := by
    simp [abstract_tree.generate, abstract_tree.sanitize, stmt.decls, stmt.refs,
          stmt.default_uses, first_dup, sortStmts, List.insertionSort, List.orderedInsert,
          stmt_ge, stmt.priority, gen_words, build_env, value_binds, layout, sprites_of,
          sprite_addrs, encode_items, token.to_string]
  have c1 : compile (sprite_toks "a" [1] ++ sprite_toks "b" [2]) = .ok [1, 2] := by
    simp [compile, hm1, e1]
  have c2 : compile (sprite_toks "b" [2] ++ sprite_toks "a" [1]) = .ok [2, 1] := by
    simp [compile, hm2, e2]
  refine ⟨c1, c2, ?_⟩
  rw [c1, c2]
  simp

/-- C8: the pipeline is a pure function of the token sequence, so two runs
on equal inputs return equal results, and every run returns either a
machine-word sequence or a fatal error value. -/
theorem c8_deterministic :
    (∀ ts1 ts2 : List token, ts1 = ts2 → compile ts1 = compile ts2) ∧
    (∀ ts, (∃ ws, compile ts = .ok ws) ∨ ∃ e, compile ts = .error e) := by
  constructor
  · intro ts1 ts2 h
    rw [h]
  · intro ts
    cases h : compile ts with
    | ok ws => exact Or.inl ⟨ws, rfl⟩
    | error e => exact Or.inr ⟨e, rfl⟩

theorem c8_witness :
    compile [] = compile [] ∧
    ((∃ ws, compile [] = .ok ws) ∨ ∃ e, compile [] = .error e) :=
  ⟨c8_deterministic.1 [] [] rfl, c8_deterministic.2 []⟩

end chasm
